import Mathlib

/-!
# Verification of the labellingApp geometry / coordinate-transform pipeline

Shallow embedding of the core geometry code of the repository:

* `getRenderedImageLayout` — the Layout Calculator of
  `src/MobileApp/app/(tabs)/analysis.tsx` (lines 88–115);
* the Region → pixel-rect mappings of the Overlay Mapper:
  the layout-aware mapping of the `imageLayout`-based `SegmentOverlay`
  (`src/unnamed/part_007`, lines 42–45) and the plain mapping of
  `src/MobileApp/components/BoundingBoxOverlay.tsx` (lines 50–53);
* the full Vector Path Scaler `scalePathToImage` of `src/unnamed/part_007`
  (lines 91–186): regex tokenization, number extraction, per-command
  scaling and `toFixed(2)` output formatting;
* the regex-replace scaler `scalePathToImage` of
  `src/MobileApp/components/SegmentOverlay.tsx` (lines 76–87);
* the Raster Cutout Engine of `src/unnamed/part_005`
  (`createCutout`, `createCutoutWithBbox`, `createCroppedCutout`).

JavaScript numbers are modelled as exact rationals (`ℚ`); `undefined` and
`NaN` operands are modelled by `Option ℚ` with `none` standing for a
non-numeric value.  Where floating-point rounding could in principle make
the JS value differ from the exact rational, the concrete inputs used in
the theorems below were chosen so that the double-precision computation
lands on the same number (this is noted at the relevant definitions).
-/

set_option autoImplicit false

namespace LabellingApp

/-- A normalized detection region, `services/moondreamApi`'s `Region`:
`{x_min, y_min, x_max, y_max}`, coordinates normalized against the image. -/
structure Region where
  x_min : ℚ
  y_min : ℚ
  x_max : ℚ
  y_max : ℚ
deriving DecidableEq, Repr

/-- The rendered-image layout rectangle `{x, y, width, height}` produced by
`getRenderedImageLayout` and consumed by the overlay components
(`imageLayout` prop).  `x`/`y` are the offsets of the drawn image inside
its container, `width`/`height` its rendered size. -/
structure Layout where
  x : ℚ
  y : ℚ
  width : ℚ
  height : ℚ
deriving DecidableEq, Repr

/-! ## Layout Calculator — `analysis.tsx` lines 88–115

```js
const getRenderedImageLayout = () => {
    const containerAspectRatio = containerWidth / containerHeight;
    if (containerAspectRatio > imageAspectRatio) {
        renderHeight = containerHeight;
        renderWidth = containerHeight * imageAspectRatio;
        offsetX = (containerWidth - renderWidth) / 2;
        offsetY = 0;
    } else {
        renderWidth = containerWidth;
        renderHeight = containerWidth / imageAspectRatio;
        offsetX = 0;
        offsetY = (containerHeight - renderHeight) / 2;
    }
    return { x: offsetX, y: offsetY, width: renderWidth, height: renderHeight };
};
```
The function performs no input validation whatsoever. -/

/-- `getRenderedImageLayout` of `analysis.tsx`, with the container size and
image aspect ratio (its free variables) made explicit parameters. -/
def getRenderedImageLayout (containerWidth containerHeight imageAspectRatio : ℚ) :
    Layout :=
  let containerAspectRatio := containerWidth / containerHeight
  if containerAspectRatio > imageAspectRatio then
    { x := (containerWidth - containerHeight * imageAspectRatio) / 2
      y := 0
      width := containerHeight * imageAspectRatio
      height := containerHeight }
  else
    { x := 0
      y := (containerHeight - containerWidth / imageAspectRatio) / 2
      width := containerWidth
      height := containerWidth / imageAspectRatio }

/-! ## Overlay Mapper — Region → pixel rect -/

/-- The pixel rectangle `(boxX, boxY, boxW, boxH)` that the
`imageLayout`-based `SegmentOverlay` (`src/unnamed/part_007`, lines 42–45)
computes for a normalized bbox `Region` and a render `Layout`:

```js
const boxX = imageLayout.x + bbox.x_min * imageLayout.width;
const boxY = imageLayout.y + bbox.y_min * imageLayout.height;
const boxW = (bbox.x_max - bbox.x_min) * imageLayout.width;
const boxH = (bbox.y_max - bbox.y_min) * imageLayout.height;
``` -/
def segmentBoxRect (bbox : Region) (imageLayout : Layout) : ℚ × ℚ × ℚ × ℚ :=
  (imageLayout.x + bbox.x_min * imageLayout.width,
   imageLayout.y + bbox.y_min * imageLayout.height,
   (bbox.x_max - bbox.x_min) * imageLayout.width,
   (bbox.y_max - bbox.y_min) * imageLayout.height)

/-- The pixel rectangle `(left, top, width, height)` computed by
`BoundingBoxOverlay.tsx` (lines 50–53) for one detection box; it receives
only `imageWidth`/`imageHeight` and applies no layout offset:

```js
const left = box.x_min * imageWidth;
const top = box.y_min * imageHeight;
const width = (box.x_max - box.x_min) * imageWidth;
const height = (box.y_max - box.y_min) * imageHeight;
``` -/
def boundingBoxRect (box : Region) (imageWidth imageHeight : ℚ) :
    ℚ × ℚ × ℚ × ℚ :=
  (box.x_min * imageWidth,
   box.y_min * imageHeight,
   (box.x_max - box.x_min) * imageWidth,
   (box.y_max - box.y_min) * imageHeight)

/-! ## JavaScript numbers, `toFixed(2)` and `parseFloat`

`JNum` models a JavaScript number operand: `some q` is the finite value
`q`, `none` models `NaN` (and an `undefined` read of an array slot, which
becomes `NaN` as soon as it enters arithmetic). -/

/-- A JavaScript numeric operand: `none` is `NaN`/`undefined`. -/
abbrev JNum := Option ℚ

/-- `a * k` with `NaN` propagation. -/
def jmul (a : JNum) (k : ℚ) : JNum := a.map (fun v => v * k)

/-- `a * k + o` (scale then offset) with `NaN` propagation. -/
def jmulAdd (a : JNum) (k o : ℚ) : JNum := a.map (fun v => v * k + o)

/-- Decimal digit characters of a natural number, most significant first
(fuel-based so that it reduces by `decide`/`rfl`; the fuel is always
sufficient since `n < 10 ^ (n + 1)`). -/
def natToCharsAux : ℕ → ℕ → List Char
  | 0, _ => []
  | fuel + 1, n =>
    if n < 10 then [Nat.digitChar n]
    else natToCharsAux fuel (n / 10) ++ [Nat.digitChar (n % 10)]

/-- Decimal digit characters of a natural number, most significant first. -/
def natToChars (n : ℕ) : List Char := natToCharsAux (n + 1) n

/-- Two-digit zero-padded rendering of `r < 100` (the fractional part of a
`toFixed(2)` result). -/
def pad2 (r : ℕ) : List Char :=
  if r < 10 then '0' :: natToChars r else natToChars r

/-- `q.toFixed(2)` for a nonnegative rational: the integer nearest to
`100 * q` (ties toward the larger integer, as specified for
`Number.prototype.toFixed`), rendered as `intpart.2digits`. -/
def fix2 (q : ℚ) : List Char :=
  let n := (⌊q * 100 + 1 / 2⌋).toNat
  natToChars (n / 100) ++ '.' :: pad2 (n % 100)

/-- `n.toFixed(2)` on a `JNum`: `NaN` prints as `"NaN"`; a negative value
is printed as `-` followed by the rendering of its negation (ECMA-262
`toFixed` step 4).  Exact-rational model of the double computation. -/
def toFixed2 : JNum → List Char
  | none => ['N', 'a', 'N']
  | some q => if q < 0 then '-' :: fix2 (-q) else fix2 q

/-- The value `toFixed(2)` rounds a rational to: nearest multiple of
`1/100`, ties away from zero (ECMA-262 `toFixed` negates first and breaks
ties upward on the magnitude). -/
def round2 (q : ℚ) : ℚ :=
  if q < 0 then -((⌊-q * 100 + 1 / 2⌋ : ℚ) / 100)
  else (⌊q * 100 + 1 / 2⌋ : ℚ) / 100

/-- Characters matched by the `[\d.]` class of the scalers' number
regexes. -/
def isNumDot (c : Char) : Bool := c.isDigit || c = '.'

/-- Whitespace as matched by the `\s` class (the characters that occur in
path strings; JS `\s` also matches various exotic Unicode spaces, which
never appear in the path mini-language). -/
def isWs (c : Char) : Bool := c = ' ' || c = '\t' || c = '\n' || c = '\r'

/-- Numeric value of a list of decimal digit characters. -/
def digitsVal (l : List Char) : ℕ :=
  l.foldl (fun acc c => acc * 10 + (c.toNat - '0'.toNat)) 0

/-- Parse an optional exponent clause `e[-+]?digits` at the head of `l`
(the `(?:e[-+]?\d+)?` group of the number regex / the exponent part of
`parseFloat`).  Returns the exponent value and the remainder; if the
clause is absent or incomplete it consumes nothing. -/
def parseExpAt (l : List Char) : ℤ × List Char :=
  match l with
  | e :: r =>
    if e = 'e' || e = 'E' then
      let (neg, r1) :=
        match r with
        | s :: r2 => if s = '-' then (true, r2) else if s = '+' then (false, r2) else (false, r)
        | [] => (false, r)
      let ds := r1.takeWhile Char.isDigit
      if ds = [] then (0, l)
      else ((if neg then -(digitsVal ds : ℤ) else (digitsVal ds : ℤ)), r1.dropWhile Char.isDigit)
    else (0, l)
  | [] => (0, l)

/-- JS `parseFloat` on a token matched by `-?[\d.]+(?:e[-+]?\d+)?`:
parses the longest valid prefix `[-] digits [. digits] [exponent]`; if no
digit occurs before the parse stops, the result is `NaN` (`none`).  An
exponent is honoured only when it directly follows the parsed mantissa
(e.g. `parseFloat("1.2.3e4") = 1.2`). -/
def parseFloatQ (t : List Char) : JNum :=
  let neg := t.head? = some '-'
  let m := if t.head? = some '-' then t.tail else t
  let ip := m.takeWhile Char.isDigit
  let r1 := m.dropWhile Char.isDigit
  let fp := if r1.head? = some '.' then r1.tail.takeWhile Char.isDigit else []
  let r2 := if r1.head? = some '.' then r1.tail.dropWhile Char.isDigit else r1
  if ip = [] ∧ fp = [] then none
  else
    let mant : ℚ := (digitsVal ip : ℚ) + (digitsVal fp : ℚ) / (10 : ℚ) ^ fp.length
    let ev := (parseExpAt r2).1
    some ((if neg then -mant else mant) * (10 : ℚ) ^ ev)

/-! ## Vector Path Scaler — `scalePathToImage` of `src/unnamed/part_007`

```js
const commandRegex = /([MLHVCSQTAZmlhvcsqtaz])([^MLHVCSQTAZmlhvcsqtaz]*)/g;
...
const numbers = argsString.match( -?[\d.]+(?:e[-+]?\d+)? gi);
```
followed by a per-command `switch` and
`result += command + ' ' + scaledArgs.map(n => n.toFixed(2)).join(' ') + ' '`,
with a final `.trim()`. -/

namespace PathScaler

/-- The command alphabet `[MLHVCSQTAZmlhvcsqtaz]` of `commandRegex`. -/
def isCmdLetter (c : Char) : Bool :=
  c = 'M' || c = 'L' || c = 'H' || c = 'V' || c = 'C' || c = 'S' || c = 'Q' ||
  c = 'T' || c = 'A' || c = 'Z' ||
  c = 'm' || c = 'l' || c = 'h' || c = 'v' || c = 'c' || c = 's' || c = 'q' ||
  c = 't' || c = 'a' || c = 'z'

/-- Scanner for `commandRegex.exec` in a loop: each match is a command
letter together with all following non-command characters; characters
before the first command letter are skipped (the regex skips positions
where no match can start). -/
def tokenizeGo (cur : Option (Char × List Char)) :
    List Char → List (Char × List Char)
  | [] => cur.toList
  | d :: rest =>
    if isCmdLetter d then cur.toList ++ tokenizeGo (some (d, [])) rest
    else tokenizeGo (cur.map (fun t => (t.1, t.2 ++ [d]))) rest

/-- `(command letter, raw argument substring)` pairs of a path string. -/
def tokenizePath (cs : List Char) : List (Char × List Char) :=
  tokenizeGo none cs

/-- Scanner for `argsString.match` with the number pattern
`-?[\d.]+(?:e[-+]?\d+)?` (flags `gi`): all matched
number tokens, in order.  Fuel-based (fuel = remaining length + 1) so that
it reduces by `decide`; the character classes `\s`, `[\d.]` and `-` make
the regex's greedy scan deterministic without backtracking. -/
def extractNumsGo : ℕ → List Char → List (List Char)
  | 0, _ => []
  | _ + 1, [] => []
  | fuel + 1, c :: rest =>
    if isNumDot c then
      let tok := c :: rest.takeWhile isNumDot
      let r1 := rest.dropWhile isNumDot
      let (ex, r2) := grabExp r1
      (tok ++ ex) :: extractNumsGo fuel r2
    else if c = '-' then
      match rest with
      | d :: _ =>
        if isNumDot d then
          let tok := rest.takeWhile isNumDot
          let r1 := rest.dropWhile isNumDot
          let (ex, r2) := grabExp r1
          ('-' :: tok ++ ex) :: extractNumsGo fuel r2
        else extractNumsGo fuel rest
      | [] => []
    else extractNumsGo fuel rest
where
  /-- The `(?:e[-+]?\d+)?` tail of a number match: the matched characters
  and the rest, or `([], l)` when the optional group matches empty. -/
  grabExp (l : List Char) : List Char × List Char :=
    match l with
    | e :: r =>
      if e = 'e' || e = 'E' then
        let (sgn, r1) :=
          match r with
          | s :: r2 => if s = '-' || s = '+' then ([s], r2) else (([] : List Char), r)
          | [] => (([] : List Char), r)
        let ds := r1.takeWhile Char.isDigit
        if ds = [] then ([], l) else (e :: sgn ++ ds, r1.dropWhile Char.isDigit)
      else ([], l)
    | [] => ([], l)

/-- All number tokens of an argument substring. -/
def extractNums (cs : List Char) : List (List Char) :=
  extractNumsGo (cs.length + 1) cs

/-- `case 'M': case 'L': case 'T':` — operand pairs `(x, y)`; the loop
steps by 2 and reads `args[i]`, `args[i+1]`, so an odd trailing operand
produces a `NaN` (`none`) second component. -/
def scalePairs (L : Layout) : List JNum → List JNum
  | [] => []
  | [a] => [jmulAdd a L.width L.x, none]
  | a :: b :: r => jmulAdd a L.width L.x :: jmulAdd b L.height L.y :: scalePairs L r

/-- `case 'H':` — x-only operands. -/
def scaleH (L : Layout) (args : List JNum) : List JNum :=
  args.map (fun a => jmulAdd a L.width L.x)

/-- `case 'V':` — y-only operands. -/
def scaleV (L : Layout) (args : List JNum) : List JNum :=
  args.map (fun a => jmulAdd a L.height L.y)

/-- `case 'C':` — operand sextuples `(x1, y1, x2, y2, x, y)`; the loop
steps by 6, out-of-range reads give `NaN`. -/
def scaleC (L : Layout) : List JNum → List JNum
  | a :: b :: c :: d :: e :: f :: r =>
    jmulAdd a L.width L.x :: jmulAdd b L.height L.y ::
    jmulAdd c L.width L.x :: jmulAdd d L.height L.y ::
    jmulAdd e L.width L.x :: jmulAdd f L.height L.y :: scaleC L r
  | [] => []
  | [a] => [jmulAdd a L.width L.x, none, none, none, none, none]
  | [a, b] => [jmulAdd a L.width L.x, jmulAdd b L.height L.y, none, none, none, none]
  | [a, b, c] =>
    [jmulAdd a L.width L.x, jmulAdd b L.height L.y, jmulAdd c L.width L.x,
     none, none, none]
  | [a, b, c, d] =>
    [jmulAdd a L.width L.x, jmulAdd b L.height L.y, jmulAdd c L.width L.x,
     jmulAdd d L.height L.y, none, none]
  | [a, b, c, d, e] =>
    [jmulAdd a L.width L.x, jmulAdd b L.height L.y, jmulAdd c L.width L.x,
     jmulAdd d L.height L.y, jmulAdd e L.width L.x, none]

/-- `case 'S': case 'Q':` — operand quadruples, two `(x, y)` pairs; the
loop steps by 4, out-of-range reads give `NaN`. -/
def scaleSQ (L : Layout) : List JNum → List JNum
  | a :: b :: c :: d :: r =>
    jmulAdd a L.width L.x :: jmulAdd b L.height L.y ::
    jmulAdd c L.width L.x :: jmulAdd d L.height L.y :: scaleSQ L r
  | [] => []
  | [a] => [jmulAdd a L.width L.x, none, none, none]
  | [a, b] => [jmulAdd a L.width L.x, jmulAdd b L.height L.y, none, none]
  | [a, b, c] =>
    [jmulAdd a L.width L.x, jmulAdd b L.height L.y, jmulAdd c L.width L.x, none]

/-- `case 'A':` — operand septuples
`(rx, ry, rotation, large-arc-flag, sweep-flag, x, y)`:
`rx` is multiplied by `layout.width`, `ry` by `layout.height` (no offset),
positions 2–4 are pushed through unchanged, the trailing pair is scaled
with offset.  The loop steps by 7; an out-of-range read of positions 2–4
pushes `undefined`, on which the later `toFixed` call would throw in JS —
modelled as `none` (no claim exercises a ragged `A` group). -/
def scaleA (L : Layout) : List JNum → List JNum
  | rx :: ry :: rot :: laf :: sf :: px :: py :: r =>
    jmul rx L.width :: jmul ry L.height :: rot :: laf :: sf ::
    jmulAdd px L.width L.x :: jmulAdd py L.height L.y :: scaleA L r
  | [] => []
  | [rx] => [jmul rx L.width, none, none, none, none, none, none]
  | [rx, ry] => [jmul rx L.width, jmul ry L.height, none, none, none, none, none]
  | [rx, ry, rot] => [jmul rx L.width, jmul ry L.height, rot, none, none, none, none]
  | [rx, ry, rot, laf] => [jmul rx L.width, jmul ry L.height, rot, laf, none, none, none]
  | [rx, ry, rot, laf, sf] => [jmul rx L.width, jmul ry L.height, rot, laf, sf, none, none]
  | [rx, ry, rot, laf, sf, px] =>
    [jmul rx L.width, jmul ry L.height, rot, laf, sf, jmulAdd px L.width L.x, none]

/-- The `switch (command.toUpperCase())` of `scalePathToImage`:
`some scaledArgs` for the supported commands, `none` for the `default:`
pass-through branch. -/
def scaleArgs (L : Layout) (cUp : Char) (args : List JNum) : Option (List JNum) :=
  if cUp = 'M' ∨ cUp = 'L' ∨ cUp = 'T' then some (scalePairs L args)
  else if cUp = 'H' then some (scaleH L args)
  else if cUp = 'V' then some (scaleV L args)
  else if cUp = 'C' then some (scaleC L args)
  else if cUp = 'S' ∨ cUp = 'Q' then some (scaleSQ L args)
  else if cUp = 'A' then some (scaleA L args)
  else if cUp = 'Z' then some []
  else none

/-- JS `String.prototype.trim` on the whitespace that occurs here. -/
def jsTrim (l : List Char) : List Char :=
  ((l.dropWhile isWs).reverse.dropWhile isWs).reverse

/-- `.join(' ')`. -/
def joinSpace : List (List Char) → List Char
  | [] => []
  | [t] => t
  | t :: r => t ++ ' ' :: joinSpace r

/-- The loop body of `scalePathToImage` for one `(command, argsString)`
token: trim the argument substring, extract the numbers; with no numbers
emit just the command letter; otherwise scale per the `switch` and emit
`command + ' ' + scaled.map(toFixed(2)).join(' ') + ' '`, or pass the
trimmed argument string through for an unsupported command. -/
def renderToken (L : Layout) (tok : Char × List Char) : List Char :=
  let trimmed := jsTrim tok.2
  let nums := extractNums trimmed
  if nums = [] then [tok.1]
  else
    match scaleArgs L tok.1.toUpper (nums.map parseFloatQ) with
    | some scaled => tok.1 :: ' ' :: joinSpace (scaled.map toFixed2) ++ [' ']
    | none => tok.1 :: ' ' :: trimmed ++ [' ']

/-- `scalePathToImage(path, layout)` of `src/unnamed/part_007`
(lines 91–186), on character lists. -/
def scalePathChars (L : Layout) (cs : List Char) : List Char :=
  jsTrim ((tokenizePath cs).map (renderToken L)).flatten

/-- `scalePathToImage(path, layout)` of `src/unnamed/part_007`, on
strings. -/
def scalePathToImage (path : String) (L : Layout) : String :=
  String.mk (scalePathChars L path.toList)

end PathScaler

/-! ## The whole-image scaler of `src/MobileApp/components/SegmentOverlay.tsx`

```js
function scalePathToImage(path, width, height) {
    return path.replace(
        ([ML])\s*([\d.]+)\s+([\d.]+)  with flags gi,
        (match, command, x, y) => {
            const scaledX = parseFloat(x) * width;
            const scaledY = parseFloat(y) * height;
            return command + ` ` + scaledX.toFixed(2) + ` ` + scaledY.toFixed(2);
        }
    );
}
```
Because the character classes `[ML]` (with `i`: `[MLml]`), `\s` and `[\d.]`
are pairwise disjoint, the regex engine's backtracking can never produce a
match that the greedy left-to-right scan below misses, so the scan is an
exact model of `String.prototype.replace` with this pattern. -/

namespace SimpleScaler

/-- `[ML]` with the `i` flag. -/
def isML (c : Char) : Bool := c = 'M' || c = 'L' || c = 'm' || c = 'l'

/-- Attempt to match `\s*([\d.]+)\s+([\d.]+)` at the head of `cs`:
returns the two captured number tokens and the remainder after the match. -/
def matchPair (cs : List Char) : Option (List Char × List Char × List Char) :=
  let r1 := cs.dropWhile isWs
  let xs := r1.takeWhile isNumDot
  if xs = [] then none
  else
    let r2 := r1.dropWhile isNumDot
    if r2.takeWhile isWs = [] then none
    else
      let r3 := r2.dropWhile isWs
      let ys := r3.takeWhile isNumDot
      if ys = [] then none else some (xs, ys, r3.dropWhile isNumDot)

/-- The global replace scan: at each `[MLml]` character try the rest of the
pattern; on a match emit the replacement
``command ++ " " ++ (x*width).toFixed(2) ++ " " ++ (y*height).toFixed(2)``
and resume after the match, otherwise copy one character and resume.
Fuel-based (`fuel ≥ length` always holds below) so that it reduces by
`decide`. -/
def replaceGo (width height : ℚ) : ℕ → List Char → List Char
  | 0, _ => []
  | _ + 1, [] => []
  | fuel + 1, c :: rest =>
    if isML c then
      match matchPair rest with
      | some (xs, ys, r) =>
        c :: ' ' :: toFixed2 (jmul (parseFloatQ xs) width) ++
          ' ' :: toFixed2 (jmul (parseFloatQ ys) height) ++ replaceGo width height fuel r
      | none => c :: replaceGo width height fuel rest
    else c :: replaceGo width height fuel rest

/-- `scalePathToImage(path, width, height)` of
`src/MobileApp/components/SegmentOverlay.tsx` (lines 76–87), on character
lists. -/
def scalePathChars (width height : ℚ) (cs : List Char) : List Char :=
  replaceGo width height cs.length cs

/-- `scalePathToImage(path, width, height)` of
`src/MobileApp/components/SegmentOverlay.tsx`, on strings. -/
def scalePathToImage (path : String) (width height : ℚ) : String :=
  String.mk (scalePathChars width height path.toList)

end SimpleScaler

/-- The scaled path that the `imageLayout`-based `SegmentOverlay`
(`src/unnamed/part_007`, lines 41–54) renders: the bbox pixel rect is
computed from the layout, then the path is scaled by the bbox dimensions
and offset by the bbox origin. -/
def segmentOverlayScaledPath (svgPath : String) (bbox : Region)
    (imageLayout : Layout) : String :=
  let r := segmentBoxRect bbox imageLayout
  PathScaler.scalePathToImage svgPath ⟨r.1, r.2.1, r.2.2.1, r.2.2.2⟩

/-! ## Raster Cutout Engine — `src/unnamed/part_005`

The three exported functions are modelled by the decisions that determine
their result dimensions, error and persistence behaviour:

* `loadImageFromUri` either yields the decoded image's pixel dimensions
  `(W, H)` or fails — modelled by an `Option (ℕ × ℕ)` input;
* `Skia.Path.MakeFromSVGString` either parses the path or returns `null` —
  modelled by a `Bool` input (`parseOk`);
* `Skia.Surface.Make(w, h)` returns a surface of exactly `(w, h)` pixels,
  or `null` when the requested dimensions are not positive — Skia raster
  surfaces require positive dimensions (out-of-memory failure for huge
  positive dimensions is not modelled);
* `makeImageSnapshot` of a live surface and `encodeToBase64` of a raster
  snapshot always succeed; the null-checks on them in the source are
  defensive dead branches, so a run that passes load, parse and surface
  allocation reaches `savePngToCache`;
* `savePngToCache` appends one persisted artifact; a failing run returns
  before it, so the write list of a failing run is empty.

Each function returns the thrown error message or the snapshot dimensions,
plus the list of persisted artifacts (their dimensions). -/

namespace Cutout

/-- `throw new Error('Failed to load image from URI')`. -/
def eLoad : String := "Failed to load image from URI"

/-- `throw new Error('Failed to parse SVG path string')`. -/
def eParse : String := "Failed to parse SVG path string"

/-- `throw new Error('Failed to create Skia surface')`. -/
def eSurface : String := "Failed to create Skia surface"

/-- `Skia.Surface.Make(w, h)`: a surface of exactly the requested
dimensions, `null` (`none`) iff a dimension is zero or negative. -/
def surfaceMake (w h : ℤ) : Option (ℤ × ℤ) :=
  if 0 < w ∧ 0 < h then some (w, h) else none

/-- Result of one cutout call: the error message or the output raster's
dimensions, together with the persisted artifacts. -/
structure RunOut where
  res : Except String (ℤ × ℤ)
  writes : List (ℤ × ℤ)
deriving Repr

/-- `createCutout(imageUri, svgPath)` (`src/unnamed/part_005`, lines
25–88): load, parse the path, allocate a `(W, H)` surface, render and
persist. -/
def createCutout (load : Option (ℕ × ℕ)) (parseOk : Bool) : RunOut :=
  match load with
  | none => ⟨.error eLoad, []⟩
  | some (w, h) =>
    if parseOk then
      match surfaceMake (w : ℤ) (h : ℤ) with
      | none => ⟨.error eSurface, []⟩
      | some dims => ⟨.ok dims, [dims]⟩
    else ⟨.error eParse, []⟩

/-- `createCutoutWithBbox(imageUri, svgPath, bbox)` (lines 100–155): load,
compute the bbox pixel rect, parse, scale into the bbox frame, allocate a
full-size `(W, H)` surface, render and persist.  The bbox affects only the
path transform, not the surface dimensions. -/
def createCutoutWithBbox (load : Option (ℕ × ℕ)) (parseOk : Bool)
    (_bbox : Region) : RunOut :=
  match load with
  | none => ⟨.error eLoad, []⟩
  | some (w, h) =>
    if parseOk then
      match surfaceMake (w : ℤ) (h : ℤ) with
      | none => ⟨.error eSurface, []⟩
      | some dims => ⟨.ok dims, [dims]⟩
    else ⟨.error eParse, []⟩

/-- `createCroppedCutout(imageUri, svgPath, bbox)` (lines 167–224): load,
compute the bbox pixel rect, allocate a `(ceil(boxW), ceil(boxH))` surface
— before parsing the path — then parse, scale, render the image at
`(-boxX, -boxY)` and persist. -/
def createCroppedCutout (load : Option (ℕ × ℕ)) (parseOk : Bool)
    (bbox : Region) : RunOut :=
  match load with
  | none => ⟨.error eLoad, []⟩
  | some (w, h) =>
    let boxW := (bbox.x_max - bbox.x_min) * (w : ℚ)
    let boxH := (bbox.y_max - bbox.y_min) * (h : ℚ)
    match surfaceMake ⌈boxW⌉ ⌈boxH⌉ with
    | none => ⟨.error eSurface, []⟩
    | some dims =>
      if parseOk then ⟨.ok dims, [dims]⟩
      else ⟨.error eParse, []⟩

/-- A path as consumed by Skia's matrix transform: its points.  Skia's
affine `scale` + `postTranslate` acts pointwise on path coordinates. -/
def applyAffine (sx sy tx ty : ℚ) (pts : List (ℚ × ℚ)) : List (ℚ × ℚ) :=
  pts.map (fun p => (p.1 * sx + tx, p.2 * sy + ty))

/-- `scalePathToPixels(path, width, height)` (lines 270–280):
`matrix.scale(width, height)` — used by `createCutout` with the full image
dimensions and zero offset (whole-image frame). -/
def scalePathToPixels (width height : ℚ) (pts : List (ℚ × ℚ)) : List (ℚ × ℚ) :=
  applyAffine width height 0 0 pts

/-- `scalePathToBbox(path, offsetX, offsetY, width, height)` (lines
289–304): `matrix.scale(width, height)` then
`matrix.postTranslate(offsetX, offsetY)` — used by `createCutoutWithBbox`
with the bbox pixel rect (bounding-box-relative frame). -/
def scalePathToBbox (offsetX offsetY width height : ℚ) (pts : List (ℚ × ℚ)) :
    List (ℚ × ℚ) :=
  applyAffine width height offsetX offsetY pts

end Cutout

/-! ## Claim-side characterizations

These definitions express the properties the specification claims; the
theorems below connect them to the source-derived definitions above. -/

/-- Lift a list of rationals to JS operands. -/
def jsome (l : List ℚ) : List JNum := l.map some

/-- Flatten a list of operand pairs `(x, y)` into an argument list. -/
def flat2 : List (ℚ × ℚ) → List ℚ
  | [] => []
  | (a, b) :: r => a :: b :: flat2 r

/-- Flatten a list of operand quadruples into an argument list. -/
def flat4 : List (ℚ × ℚ × ℚ × ℚ) → List ℚ
  | [] => []
  | (a, b, c, d) :: r => a :: b :: c :: d :: flat4 r

/-- Flatten a list of operand sextuples into an argument list. -/
def flat6 : List (ℚ × ℚ × ℚ × ℚ × ℚ × ℚ) → List ℚ
  | [] => []
  | (a, b, c, d, e, f) :: r => a :: b :: c :: d :: e :: f :: flat6 r

/-- Flatten a list of operand septuples into an argument list. -/
def flat7 : List (ℚ × ℚ × ℚ × ℚ × ℚ × ℚ × ℚ) → List ℚ
  | [] => []
  | (a, b, c, d, e, f, g) :: r => a :: b :: c :: d :: e :: f :: g :: flat7 r

/-- A structured path command for stating C10: a command letter and its
rendered operand tokens. -/
structure RawCmd where
  letter : Char
  args : List (List Char)

/-- A well-formed operand token: an optional leading minus followed by a
nonempty run of `[\d.]` characters (the token shapes the number regexes
match). -/
def goodTok (t : List Char) : Bool :=
  match t with
  | [] => false
  | d :: r => if d = '-' then !r.isEmpty && r.all isNumDot else (d :: r).all isNumDot

/-- The path command alphabet for stating C10 (the SVG command letters,
both cases). -/
def cmdLetters : List Char :=
  ['M', 'L', 'H', 'V', 'C', 'S', 'Q', 'T', 'A', 'Z',
   'm', 'l', 'h', 'v', 'c', 's', 'q', 't', 'a', 'z']

/-- Canonical single-space rendering of a structured command:
`letter ++ " " ++ tok ++ " " ++ tok ++ …`. -/
def renderCmd (c : RawCmd) : List Char :=
  c.letter :: c.args.foldr (fun t acc => ' ' :: (t ++ acc)) []

/-- Canonical single-space rendering of a structured path. -/
def renderPath : List RawCmd → List Char
  | [] => []
  | [c] => renderCmd c
  | c :: r => renderCmd c ++ ' ' :: renderPath r

/-- The per-command transformation that C10 asserts the whole-image scaler
performs: on an `M`/`L` command whose first two operand tokens are
nonnegative, replace exactly that pair by
`(x*width).toFixed(2)`, `(y*height).toFixed(2)`; leave every other command
— and the remaining operands of a transformed `M`/`L` — unchanged. -/
def mlTransform (width height : ℚ) (c : RawCmd) : RawCmd :=
  if SimpleScaler.isML c.letter then
    match c.args with
    | a0 :: a1 :: rest =>
      if a0.all isNumDot && a1.all isNumDot then
        ⟨c.letter,
         toFixed2 (jmul (parseFloatQ a0) width) ::
         toFixed2 (jmul (parseFloatQ a1) height) :: rest⟩
      else c
    | _ => c
  else c

/-- One coordinate operand's value after the part_007 scaler's scale ↦
format ↦ reparse round trip with transform `(s, s, 0, 0)` followed by
`(1/s, 1/s, 0, 0)`: what the claimed inverse-scaling round trip actually
produces for an operand `x` (the `toFixed(2)` output formatting quantizes
each pass). -/
def roundtripOperand (s x : ℚ) : JNum :=
  parseFloatQ (toFixed2 (jmulAdd (parseFloatQ (toFixed2 (jmulAdd (some x) s 0))) (1 / s) 0))

/-- The exact rational a `toFixed(2)` rendering stands for, as `fix2`
computes it for a nonnegative rational. -/
def fix2val (q : ℚ) : ℚ := (⌊q * 100 + 1 / 2⌋ : ℚ) / 100

/-! ## Theorems -/

/-- C6: for a source image decoding to `(W, H)` and any bbox Region, a
successful `createCroppedCutout` run yields a raster of exactly
`(ceil((x_max - x_min) * W), ceil((y_max - y_min) * H))` pixels, while
successful `createCutout` and `createCutoutWithBbox` runs always yield a
raster of exactly `(W, H)`. -/
theorem C6_cutout_dimensions :
    ∀ (W H : ℕ) (parseOk : Bool) (bbox : Region) (dims : ℤ × ℤ),
      ((Cutout.createCroppedCutout (some (W, H)) parseOk bbox).res = .ok dims →
        dims = (⌈(bbox.x_max - bbox.x_min) * (W : ℚ)⌉,
                ⌈(bbox.y_max - bbox.y_min) * (H : ℚ)⌉)) ∧
      ((Cutout.createCutout (some (W, H)) parseOk).res = .ok dims →
        dims = ((W : ℤ), (H : ℤ))) ∧
      ((Cutout.createCutoutWithBbox (some (W, H)) parseOk bbox).res = .ok dims →
        dims = ((W : ℤ), (H : ℤ))) := by
  intro W H parseOk bbox dims
  refine ⟨?_, ?_, ?_⟩
  · intro h
    rw [Cutout.createCroppedCutout] at h
    split at h
    · simp at h
    · rename_i d heq
      rw [Cutout.surfaceMake] at heq
      split_ifs at heq
      · injection heq with heqd
        cases parseOk
        · simp at h
        · simp at h
          rw [← h]
          exact heqd.symm
  · intro h
    rw [Cutout.createCutout] at h
    split at h
    · split at h
      · simp at h
      · rename_i d heq
        rw [Cutout.surfaceMake] at heq
        split_ifs at heq
        · injection heq with heqd
          simp at h
          rw [← h]
          exact heqd.symm
    · simp at h
  · intro h
    rw [Cutout.createCutoutWithBbox] at h
    split at h
    · split at h
      · simp at h
      · rename_i d heq
        rw [Cutout.surfaceMake] at heq
        split_ifs at heq
        · injection heq with heqd
          simp at h
          rw [← h]
          exact heqd.symm
    · simp at h

/-- C6 witness: `C6_cutout_dimensions` on a 400×400 source with bbox
`{0, 0, 0.5, 0.5}`: the successful cropped run yields exactly 200×200. -/
theorem C6_cutout_dimensions_witness :
    (Cutout.createCroppedCutout (some (400, 400)) true ⟨0, 0, 1/2, 1/2⟩).res =
      .ok (200, 200) ∧
    ((200 : ℤ), (200 : ℤ)) =
      (⌈((1/2 : ℚ) - 0) * ((400 : ℕ) : ℚ)⌉, ⌈((1/2 : ℚ) - 0) * ((400 : ℕ) : ℚ)⌉) := by
  have hres : (Cutout.createCroppedCutout (some (400, 400)) true ⟨0, 0, 1/2, 1/2⟩).res =
      .ok (200, 200) := by
    rw [Cutout.createCroppedCutout]
    norm_num [Cutout.surfaceMake]
  exact ⟨hres,
    (C6_cutout_dimensions 400 400 true ⟨0, 0, 1/2, 1/2⟩ (200, 200)).1 hres⟩

/-- Closed-form evaluation of `createCutout` on a successfully decoded
image. -/
theorem createCutout_some_eq (w h : ℕ) (p : Bool) :
    Cutout.createCutout (some (w, h)) p =
      if p = true then
        if 0 < (w : ℤ) ∧ 0 < (h : ℤ) then
          ⟨.ok ((w : ℤ), (h : ℤ)), [((w : ℤ), (h : ℤ))]⟩
        else ⟨.error Cutout.eSurface, []⟩
      else ⟨.error Cutout.eParse, []⟩ := by
  simp only [Cutout.createCutout, Cutout.surfaceMake]
  cases p
  · simp
  · simp only [if_true]
    split_ifs <;> rfl

/-- Closed-form evaluation of `createCutoutWithBbox` on a successfully
decoded image. -/
theorem createCutoutWithBbox_some_eq (w h : ℕ) (p : Bool) (bbox : Region) :
    Cutout.createCutoutWithBbox (some (w, h)) p bbox =
      if p = true then
        if 0 < (w : ℤ) ∧ 0 < (h : ℤ) then
          ⟨.ok ((w : ℤ), (h : ℤ)), [((w : ℤ), (h : ℤ))]⟩
        else ⟨.error Cutout.eSurface, []⟩
      else ⟨.error Cutout.eParse, []⟩ := by
  simp only [Cutout.createCutoutWithBbox, Cutout.surfaceMake]
  cases p
  · simp
  · simp only [if_true]
    split_ifs <;> rfl

/-- Closed-form evaluation of `createCroppedCutout` on a successfully
decoded image: the surface check precedes the parse check. -/
theorem createCroppedCutout_some_eq (w h : ℕ) (p : Bool) (bbox : Region) :
    Cutout.createCroppedCutout (some (w, h)) p bbox =
      if 0 < ⌈(bbox.x_max - bbox.x_min) * (w : ℚ)⌉ ∧
          0 < ⌈(bbox.y_max - bbox.y_min) * (h : ℚ)⌉ then
        if p = true then
          ⟨.ok (⌈(bbox.x_max - bbox.x_min) * (w : ℚ)⌉,
                ⌈(bbox.y_max - bbox.y_min) * (h : ℚ)⌉),
           [(⌈(bbox.x_max - bbox.x_min) * (w : ℚ)⌉,
             ⌈(bbox.y_max - bbox.y_min) * (h : ℚ)⌉)]⟩
        else ⟨.error Cutout.eParse, []⟩
      else ⟨.error Cutout.eSurface, []⟩ := by
  simp only [Cutout.createCroppedCutout, Cutout.surfaceMake]
  split_ifs <;> cases p <;> rfl

set_option maxHeartbeats 2000000 in
/-- C7: each cutout operation fails exactly when the image fails to
decode, the path fails to parse, or the target surface cannot be
allocated (zero/negative dimensions); the three failures carry pairwise
distinct error messages (load / parse / surface); and a failing run
persists no artifact.  In `createCutout`/`createCutoutWithBbox` the load
check precedes the parse check, which precedes allocation; in
`createCroppedCutout` the surface is allocated before the path is parsed,
so when both would fail the surface error is reported. -/
theorem C7_cutout_error_taxonomy :
    (Cutout.eLoad ≠ Cutout.eParse ∧ Cutout.eLoad ≠ Cutout.eSurface ∧
      Cutout.eParse ≠ Cutout.eSurface) ∧
    (∀ (load : Option (ℕ × ℕ)) (parseOk : Bool) (bbox : Region),
      (((Cutout.createCutout load parseOk).res = .error Cutout.eLoad ∧
        (Cutout.createCutoutWithBbox load parseOk bbox).res = .error Cutout.eLoad ∧
        (Cutout.createCroppedCutout load parseOk bbox).res = .error Cutout.eLoad) ↔
        load = none) ∧
      (∀ w h : ℕ, load = some (w, h) →
        (((Cutout.createCutout load parseOk).res = .error Cutout.eParse ∧
          (Cutout.createCutoutWithBbox load parseOk bbox).res = .error Cutout.eParse) ↔
          parseOk = false) ∧
        (((Cutout.createCutout load parseOk).res = .error Cutout.eSurface ∧
          (Cutout.createCutoutWithBbox load parseOk bbox).res = .error Cutout.eSurface) ↔
          (parseOk = true ∧ ¬(0 < (w : ℤ) ∧ 0 < (h : ℤ)))) ∧
        ((Cutout.createCroppedCutout load parseOk bbox).res = .error Cutout.eSurface ↔
          ¬(0 < ⌈(bbox.x_max - bbox.x_min) * (w : ℚ)⌉ ∧
            0 < ⌈(bbox.y_max - bbox.y_min) * (h : ℚ)⌉)) ∧
        ((Cutout.createCroppedCutout load parseOk bbox).res = .error Cutout.eParse ↔
          ((0 < ⌈(bbox.x_max - bbox.x_min) * (w : ℚ)⌉ ∧
            0 < ⌈(bbox.y_max - bbox.y_min) * (h : ℚ)⌉) ∧ parseOk = false)) ∧
        ((∃ d, (Cutout.createCutout load parseOk).res = .ok d) ↔
          (parseOk = true ∧ 0 < (w : ℤ) ∧ 0 < (h : ℤ)))) ∧
      (∀ e, (Cutout.createCutout load parseOk).res = .error e →
        (Cutout.createCutout load parseOk).writes = []) ∧
      (∀ e, (Cutout.createCutoutWithBbox load parseOk bbox).res = .error e →
        (Cutout.createCutoutWithBbox load parseOk bbox).writes = []) ∧
      (∀ e, (Cutout.createCroppedCutout load parseOk bbox).res = .error e →
        (Cutout.createCroppedCutout load parseOk bbox).writes = [])) := by
  refine ⟨⟨by decide, by decide, by decide⟩, ?_⟩
  intro load parseOk bbox
  cases load with
  | none =>
    refine ⟨by simp [Cutout.createCutout, Cutout.createCutoutWithBbox,
      Cutout.createCroppedCutout], ?_, ?_, ?_, ?_⟩
    · intro w h hwh
      exact absurd hwh (by simp)
    all_goals
      intro e he
      simp [Cutout.createCutout, Cutout.createCutoutWithBbox,
        Cutout.createCroppedCutout]
  | some wh =>
    obtain ⟨w, h⟩ := wh
    simp only [createCutout_some_eq, createCutoutWithBbox_some_eq,
      createCroppedCutout_some_eq]
    by_cases hwh : 0 < (w : ℤ) ∧ 0 < (h : ℤ) <;>
      by_cases hbox : 0 < ⌈(bbox.x_max - bbox.x_min) * (w : ℚ)⌉ ∧
          0 < ⌈(bbox.y_max - bbox.y_min) * (h : ℚ)⌉ <;>
      cases parseOk <;>
      refine ⟨?_, fun w2 h2 hwh2 => ?_, fun e he => ?_, fun e he => ?_,
        fun e he => ?_⟩ <;>
      (try (simp only [Option.some.injEq, Prod.mk.injEq] at hwh2;
            obtain ⟨rfl, rfl⟩ := hwh2;
            refine ⟨?_, ?_, ?_, ?_, ?_⟩)) <;>
      (first
        | (simp_all [Cutout.eLoad, Cutout.eParse, Cutout.eSurface, Int.ceil_pos];
           done)
        | ((try simp only [if_neg hbox] at *) <;>
           (try simp only [if_neg hwh] at *) <;>
           (try simp_all [Cutout.eLoad, Cutout.eParse, Cutout.eSurface,
             Int.ceil_pos])))

/-- C7 witness: `C7_cutout_error_taxonomy` at a decodable 400×300 image
with an unparseable path: `createCutout` fails with exactly the parse
error and persists nothing. -/
theorem C7_cutout_error_taxonomy_witness :
    (Cutout.createCutout (some (400, 300)) false).res = .error Cutout.eParse ∧
    (Cutout.createCutout (some (400, 300)) false).writes = [] := by
  have h := (C7_cutout_error_taxonomy.2 (some (400, 300)) false ⟨0, 0, 1, 1⟩).2.1
    400 300 rfl
  have hres := (h.1.mpr rfl).1
  exact ⟨hres,
    (C7_cutout_error_taxonomy.2 (some (400, 300)) false ⟨0, 0, 1, 1⟩).2.2.1
      Cutout.eParse hres⟩

attribute [local semireducible] Rat.mul Rat.add Rat.sub Rat.inv Rat.ofScientific

/-- C1: for every Region and every RenderLayout, the Overlay Mapper's
region-to-pixel mapping (the layout-aware mapping of the
`imageLayout`-based `SegmentOverlay`, `src/unnamed/part_007` lines 42–45)
produces `left = layout.x + x_min * layout.width`,
`top = layout.y + y_min * layout.height`,
`width = (x_max - x_min) * layout.width`,
`height = (y_max - y_min) * layout.height`; the mapping of
`BoundingBoxOverlay.tsx` is its zero-offset special case; and Region
`{0.1, 0.2, 0.5, 0.6}` through layout
`{offsetX: 0, offsetY: 100, width: 300, height: 200}` yields the pixel
rect `left = 30, top = 140, width = 120, height = 80`. -/
theorem C1_region_to_pixel_rect :
    (∀ (region : Region) (layout : Layout),
      segmentBoxRect region layout =
        (layout.x + region.x_min * layout.width,
         layout.y + region.y_min * layout.height,
         (region.x_max - region.x_min) * layout.width,
         (region.y_max - region.y_min) * layout.height)) ∧
    (∀ (region : Region) (W H : ℚ),
      boundingBoxRect region W H = segmentBoxRect region ⟨0, 0, W, H⟩) ∧
    segmentBoxRect ⟨0.1, 0.2, 0.5, 0.6⟩ ⟨0, 100, 300, 200⟩ = (30, 140, 120, 80) := by
  refine ⟨fun region layout => rfl, fun region W H => ?_, by decide⟩
  simp [boundingBoxRect, segmentBoxRect]

/-- C2: for positive container dimensions and image aspect ratio, the
Layout Calculator `getRenderedImageLayout` returns the height-constrained
(pillarboxed) layout when `containerWidth / containerHeight >
imageAspectRatio` and the width-constrained (letterboxed) layout
otherwise; container 300×400 with aspect ratio 1.5 yields
`renderWidth = 300, renderHeight = 200, offsetY = 100, offsetX = 0`. -/
theorem C2_layout_calculator :
    (∀ containerWidth containerHeight imageAspectRatio : ℚ,
      0 < containerWidth → 0 < containerHeight → 0 < imageAspectRatio →
      (containerWidth / containerHeight > imageAspectRatio →
        getRenderedImageLayout containerWidth containerHeight imageAspectRatio =
          { x := (containerWidth - containerHeight * imageAspectRatio) / 2
            y := 0
            width := containerHeight * imageAspectRatio
            height := containerHeight }) ∧
      (¬ containerWidth / containerHeight > imageAspectRatio →
        getRenderedImageLayout containerWidth containerHeight imageAspectRatio =
          { x := 0
            y := (containerHeight - containerWidth / imageAspectRatio) / 2
            width := containerWidth
            height := containerWidth / imageAspectRatio })) ∧
    getRenderedImageLayout 300 400 (3 / 2) =
      { x := 0, y := 100, width := 300, height := 200 } := by
  refine ⟨fun cw ch r _ _ _ => ⟨fun hgt => ?_, fun hle => ?_⟩, by decide⟩
  · simp [getRenderedImageLayout, hgt]
  · simp [getRenderedImageLayout, hle]

/-- C2 witness: the universal part of `C2_layout_calculator` applied to
the concrete 300×400 container with aspect ratio 3/2. -/
theorem C2_layout_calculator_witness :
    getRenderedImageLayout 300 400 (3 / 2) =
      { x := 0, y := 100, width := 300, height := 200 } := by
  have h := (C2_layout_calculator.1 300 400 (3 / 2) (by norm_num) (by norm_num)
    (by norm_num)).2 (by norm_num)
  rw [h]; norm_num

/-- C8 counterexample: the claim "for degenerate inputs the Layout
Calculator returns a zero-size layout or fails fast" is false on the code:
`getRenderedImageLayout` validates nothing, and for the degenerate input
`imageAspectRatio = -1` (with container 300×400) it returns the layout
`{x: 350, y: 0, width: -400, height: 400}`, which has nonzero (indeed
negative) width and nonzero height, and no failure occurs — the function
is total. -/
theorem C8_counterexample :
    (-1 : ℚ) ≤ 0 ∧
    getRenderedImageLayout 300 400 (-1) =
      { x := 350, y := 0, width := -400, height := 400 } ∧
    (getRenderedImageLayout 300 400 (-1)).width ≠ 0 ∧
    (getRenderedImageLayout 300 400 (-1)).height ≠ 0 := by decide

/-- C8 (amended): for degenerate inputs the Layout Calculator performs no
validation and silently evaluates the same branch arithmetic as for valid
inputs; in particular for any negative aspect ratio (and positive
container) it returns the pillarbox-branch layout, whose width
`containerHeight * imageAspectRatio` is negative — neither a zero-size
layout nor a failure.  (In this exact-rational model every component is a
finite rational; the JS original can additionally produce NaN or Infinity
components when a container dimension is zero.) -/
theorem C8_no_degenerate_input_validation :
    ∀ containerWidth containerHeight imageAspectRatio : ℚ,
      0 < containerWidth → 0 < containerHeight → imageAspectRatio < 0 →
      getRenderedImageLayout containerWidth containerHeight imageAspectRatio =
        { x := (containerWidth - containerHeight * imageAspectRatio) / 2
          y := 0
          width := containerHeight * imageAspectRatio
          height := containerHeight } ∧
      (getRenderedImageLayout containerWidth containerHeight imageAspectRatio).width < 0 := by
  intro cw ch r hcw hch hr
  have hgt : cw / ch > r := lt_of_lt_of_le hr (le_of_lt (div_pos hcw hch))
  constructor
  · simp [getRenderedImageLayout, hgt]
  · simp [getRenderedImageLayout, hgt]
    exact mul_neg_of_pos_of_neg hch hr

/-- C8 witness: `C8_no_degenerate_input_validation` applied to the
degenerate input (300, 400, -1). -/
theorem C8_no_degenerate_input_validation_witness :
    getRenderedImageLayout 300 400 (-1) =
      { x := 350, y := 0, width := -400, height := 400 } ∧
    (getRenderedImageLayout 300 400 (-1)).width < 0 := by
  have h := C8_no_degenerate_input_validation 300 400 (-1) (by norm_num)
    (by norm_num) (by norm_num)
  refine ⟨?_, h.2⟩
  rw [h.1]; norm_num

/-! ### Chunk evaluation lemmas for the part_007 scaler -/

theorem scalePairs_jsome_flat2 (L : Layout) (ps : List (ℚ × ℚ)) :
    PathScaler.scalePairs L (jsome (flat2 ps)) =
      jsome (flat2 (ps.map fun p => (p.1 * L.width + L.x, p.2 * L.height + L.y))) := by
  induction ps with
  | nil => rfl
  | cons p r ih =>
    obtain ⟨a, b⟩ := p
    simp [flat2, jsome, PathScaler.scalePairs, jmulAdd] at ih ⊢
    exact ih

theorem scaleSQ_jsome_flat4 (L : Layout) (qs : List (ℚ × ℚ × ℚ × ℚ)) :
    PathScaler.scaleSQ L (jsome (flat4 qs)) =
      jsome (flat4 (qs.map fun (a, b, c, d) =>
        (a * L.width + L.x, b * L.height + L.y,
         c * L.width + L.x, d * L.height + L.y))) := by
  induction qs with
  | nil => rfl
  | cons q r ih =>
    obtain ⟨a, b, c, d⟩ := q
    simp [flat4, jsome, PathScaler.scaleSQ, jmulAdd] at ih ⊢
    exact ih

theorem scaleC_jsome_flat6 (L : Layout) (cs : List (ℚ × ℚ × ℚ × ℚ × ℚ × ℚ)) :
    PathScaler.scaleC L (jsome (flat6 cs)) =
      jsome (flat6 (cs.map fun (a, b, c, d, e, f) =>
        (a * L.width + L.x, b * L.height + L.y,
         c * L.width + L.x, d * L.height + L.y,
         e * L.width + L.x, f * L.height + L.y))) := by
  induction cs with
  | nil => rfl
  | cons t r ih =>
    obtain ⟨a, b, c, d, e, f⟩ := t
    simp [flat6, jsome, PathScaler.scaleC, jmulAdd] at ih ⊢
    exact ih

theorem scaleA_jsome_flat7 (L : Layout) (ts : List (ℚ × ℚ × ℚ × ℚ × ℚ × ℚ × ℚ)) :
    PathScaler.scaleA L (jsome (flat7 ts)) =
      jsome (flat7 (ts.map fun (rx, ry, rot, laf, sf, px, py) =>
        (rx * L.width, ry * L.height, rot, laf, sf,
         px * L.width + L.x, py * L.height + L.y))) := by
  induction ts with
  | nil => rfl
  | cons t r ih =>
    obtain ⟨rx, ry, rot, laf, sf, px, py⟩ := t
    simp [flat7, jsome, PathScaler.scaleA, jmulAdd, jmul] at ih ⊢
    exact ih

/-- C3: the part_007 Vector Path Scaler maps, for each supported command
(`M`, `L`, `T` — pairs; `H` — x-only; `V` — y-only; `C` — sextuples;
`S`, `Q` — quadruples; arbitrary implicit-repetition group counts), every
scaled x-operand to `x * scaleX + offsetX` and every scaled y-operand to
`y * scaleY + offsetY`, preserving operand order and multiplicity (the
output groups are the input groups, transformed in place); and the path
`"M 0.1 0.2 L 0.5 0.6 Z"` scaled with
`scaleX = 200, scaleY = 200, offsetX = 10, offsetY = 10` produces exactly
`"M 30.00 50.00 L 110.00 130.00 Z"`. -/
theorem C3_path_scaler_operand_mapping :
    (∀ (L : Layout) (c : Char), c ∈ (['M', 'L', 'T'] : List Char) →
      ∀ ps : List (ℚ × ℚ),
        PathScaler.scaleArgs L c (jsome (flat2 ps)) =
          some (jsome (flat2 (ps.map fun p =>
            (p.1 * L.width + L.x, p.2 * L.height + L.y))))) ∧
    (∀ (L : Layout) (xs : List ℚ),
      PathScaler.scaleArgs L 'H' (jsome xs) =
        some (jsome (xs.map fun v => v * L.width + L.x))) ∧
    (∀ (L : Layout) (ys : List ℚ),
      PathScaler.scaleArgs L 'V' (jsome ys) =
        some (jsome (ys.map fun v => v * L.height + L.y))) ∧
    (∀ (L : Layout) (cs : List (ℚ × ℚ × ℚ × ℚ × ℚ × ℚ)),
      PathScaler.scaleArgs L 'C' (jsome (flat6 cs)) =
        some (jsome (flat6 (cs.map fun (a, b, c, d, e, f) =>
          (a * L.width + L.x, b * L.height + L.y,
           c * L.width + L.x, d * L.height + L.y,
           e * L.width + L.x, f * L.height + L.y))))) ∧
    (∀ (L : Layout) (c : Char), c ∈ (['S', 'Q'] : List Char) →
      ∀ qs : List (ℚ × ℚ × ℚ × ℚ),
        PathScaler.scaleArgs L c (jsome (flat4 qs)) =
          some (jsome (flat4 (qs.map fun (a, b, c, d) =>
            (a * L.width + L.x, b * L.height + L.y,
             c * L.width + L.x, d * L.height + L.y))))) ∧
    PathScaler.scalePathToImage "M 0.1 0.2 L 0.5 0.6 Z" ⟨10, 10, 200, 200⟩ =
      "M 30.00 50.00 L 110.00 130.00 Z" := by
  refine ⟨fun L c hc ps => ?_, fun L xs => ?_, fun L ys => ?_, fun L cs => ?_,
    fun L c hc qs => ?_, by decide⟩
  · fin_cases hc <;>
      simp [PathScaler.scaleArgs, scalePairs_jsome_flat2]
  · simp [PathScaler.scaleArgs, PathScaler.scaleH, jsome, jmulAdd]
  · simp [PathScaler.scaleArgs, PathScaler.scaleV, jsome, jmulAdd]
  · simp [PathScaler.scaleArgs, scaleC_jsome_flat6]
  · fin_cases hc <;>
      simp [PathScaler.scaleArgs, scaleSQ_jsome_flat4]

/-- C3 witness: the `M`-command clause of
`C3_path_scaler_operand_mapping` at the transform
`(scaleX 200, scaleY 200, offsetX 10, offsetY 10)` and the single operand
pair `(0.1, 0.2)`, which lands on `(30, 50)`. -/
theorem C3_path_scaler_operand_mapping_witness :
    PathScaler.scaleArgs ⟨10, 10, 200, 200⟩ 'M' (jsome (flat2 [(0.1, 0.2)])) =
      some (jsome (flat2 [(30, 50)])) := by
  have h := C3_path_scaler_operand_mapping.1 ⟨10, 10, 200, 200⟩ 'M'
    (by decide) [(0.1, 0.2)]
  rw [h]
  decide

/-- C5: for every transform and every list of `A`-command operand
septuples `(rx, ry, rotation, large-arc-flag, sweep-flag, x, y)`, the
part_007 scaler multiplies `rx` by scaleX and `ry` by scaleY (no offset),
leaves the rotation and the two flag operands numerically unaltered, and
maps the trailing `(x, y)` to
`(x * scaleX + offsetX, y * scaleY + offsetY)`. -/
theorem C5_arc_operand_preservation :
    ∀ (L : Layout) (ts : List (ℚ × ℚ × ℚ × ℚ × ℚ × ℚ × ℚ)),
      PathScaler.scaleArgs L 'A' (jsome (flat7 ts)) =
        some (jsome (flat7 (ts.map fun (rx, ry, rot, laf, sf, px, py) =>
          (rx * L.width, ry * L.height, rot, laf, sf,
           px * L.width + L.x, py * L.height + L.y)))) := by
  intro L ts
  simp [PathScaler.scaleArgs, scaleA_jsome_flat7]

/-! ### Rounding and reparsing lemmas for `toFixed(2)` -/

theorem abs_fix2val_sub_le (q : ℚ) : |fix2val q - q| ≤ 1 / 200 := by
  have h1 : (⌊q * 100 + 1 / 2⌋ : ℚ) ≤ q * 100 + 1 / 2 := Int.floor_le _
  have h2 : q * 100 + 1 / 2 < (⌊q * 100 + 1 / 2⌋ : ℚ) + 1 := Int.lt_floor_add_one _
  rw [fix2val, abs_le]
  constructor <;> linarith

theorem abs_round2_sub_le (q : ℚ) : |round2 q - q| ≤ 1 / 200 := by
  rw [round2]
  split
  · have h := abs_fix2val_sub_le (-q)
    rw [fix2val] at h
    have e : -((⌊-q * 100 + 1 / 2⌋ : ℚ) / 100) - q =
        -((⌊-q * 100 + 1 / 2⌋ : ℚ) / 100 - -q) := by ring
    rw [e, abs_neg]
    exact h
  · have h := abs_fix2val_sub_le q
    rw [fix2val] at h
    exact h

theorem takeWhile_append_of_all {α : Type} {p : α → Bool} (xs r : List α)
    (h1 : ∀ c ∈ xs, p c = true) (h2 : ∀ c ∈ r.take 1, p c = false) :
    (xs ++ r).takeWhile p = xs := by
  induction xs with
  | nil =>
    cases r with
    | nil => rfl
    | cons c t => simp [List.takeWhile_cons, h2 c (by simp)]
  | cons c t ih =>
    simp only [List.cons_append, List.takeWhile_cons, h1 c (by simp), if_true]
    rw [ih (fun d hd => h1 d (by simp [hd]))]

theorem dropWhile_append_of_all {α : Type} {p : α → Bool} (xs r : List α)
    (h1 : ∀ c ∈ xs, p c = true) (h2 : ∀ c ∈ r.take 1, p c = false) :
    (xs ++ r).dropWhile p = r := by
  induction xs with
  | nil =>
    cases r with
    | nil => rfl
    | cons c t => simp [List.dropWhile_cons, h2 c (by simp)]
  | cons c t ih =>
    simp only [List.cons_append, List.dropWhile_cons, h1 c (by simp), if_true]
    exact ih (fun d hd => h1 d (by simp [hd]))

theorem digitChar_isDigit {d : ℕ} (h : d < 10) : (Nat.digitChar d).isDigit = true := by
  interval_cases d <;> decide

theorem digitChar_val {d : ℕ} (h : d < 10) :
    (Nat.digitChar d).toNat - '0'.toNat = d := by
  interval_cases d <;> decide

theorem digitsVal_append_singleton (l : List Char) (c : Char) :
    digitsVal (l ++ [c]) = digitsVal l * 10 + (c.toNat - '0'.toNat) := by
  simp [digitsVal, List.foldl_append]

theorem natToCharsAux_spec :
    ∀ (fuel n : ℕ), n < 10 ^ fuel →
      (∀ c ∈ natToCharsAux fuel n, c.isDigit = true) ∧
      digitsVal (natToCharsAux fuel n) = n := by
  intro fuel
  induction fuel with
  | zero =>
    intro n hn
    interval_cases n
    exact ⟨by simp [natToCharsAux], by simp [natToCharsAux, digitsVal]⟩
  | succ f ih =>
    intro n hn
    by_cases h10 : n < 10
    · refine ⟨?_, ?_⟩
      · intro c hc
        simp only [natToCharsAux, if_pos h10, List.mem_singleton] at hc
        exact hc ▸ digitChar_isDigit h10
      · simpa [natToCharsAux, if_pos h10, digitsVal] using digitChar_val h10
    · have hdiv : n / 10 < 10 ^ f := by
        rw [Nat.div_lt_iff_lt_mul (by norm_num)]
        calc n < 10 ^ (f + 1) := hn
        _ = 10 ^ f * 10 := by ring
      obtain ⟨ihd, ihv⟩ := ih (n / 10) hdiv
      refine ⟨?_, ?_⟩
      · intro c hc
        simp only [natToCharsAux, if_neg h10, List.mem_append, List.mem_singleton] at hc
        rcases hc with hc | hc
        · exact ihd c hc
        · exact hc ▸ digitChar_isDigit (Nat.mod_lt n (by norm_num))
      · rw [natToCharsAux, if_neg h10, digitsVal_append_singleton, ihv,
          digitChar_val (Nat.mod_lt n (by norm_num))]
        omega

theorem lt_ten_pow_succ (n : ℕ) : n < 10 ^ (n + 1) :=
  lt_of_lt_of_le (Nat.lt_two_pow n)
    (le_trans (Nat.pow_le_pow_left (by norm_num) n)
      (Nat.pow_le_pow_right (by norm_num) (Nat.le_succ n)))

theorem natToChars_digits (n : ℕ) : ∀ c ∈ natToChars n, c.isDigit = true :=
  (natToCharsAux_spec (n + 1) n (lt_ten_pow_succ n)).1

theorem digitsVal_natToChars (n : ℕ) : digitsVal (natToChars n) = n :=
  (natToCharsAux_spec (n + 1) n (lt_ten_pow_succ n)).2

theorem natToChars_ne_nil (n : ℕ) : natToChars n ≠ [] := by
  rw [natToChars, natToCharsAux]
  split <;> simp

theorem natToCharsAux_small {fuel m : ℕ} (hf : 0 < fuel) (hm : m < 10) :
    natToCharsAux fuel m = [Nat.digitChar m] := by
  cases fuel with
  | zero => exact absurd hf (by norm_num)
  | succ f => simp [natToCharsAux, if_pos hm]

theorem pad2_digits (r : ℕ) : ∀ c ∈ pad2 r, c.isDigit = true := by
  rw [pad2]
  split
  · intro c hc
    rcases List.mem_cons.1 hc with h | h
    · rw [h]; decide
    · exact natToChars_digits r c h
  · exact natToChars_digits r

theorem digitsVal_pad2 (r : ℕ) : digitsVal (pad2 r) = r := by
  rw [pad2]
  split
  · have : digitsVal ('0' :: natToChars r) = digitsVal (natToChars r) := by
      simp [digitsVal, List.foldl]
    rw [this, digitsVal_natToChars]
  · exact digitsVal_natToChars r

theorem length_pad2 {r : ℕ} (h : r < 100) : (pad2 r).length = 2 := by
  rw [pad2]
  split
  · rename_i h10
    rw [natToChars, natToCharsAux_small (by omega) h10]
    rfl
  · rename_i h10
    push_neg at h10
    have hdiv : r / 10 < 10 := by omega
    rw [natToChars, natToCharsAux, if_neg (by omega),
      natToCharsAux_small (by omega) hdiv]
    rfl

theorem parseFloatQ_digits_dot (c : Char) (ip fp : List Char)
    (hc : c.isDigit = true)
    (hipd : ∀ d ∈ ip, d.isDigit = true) (hfpd : ∀ d ∈ fp, d.isDigit = true) :
    parseFloatQ (c :: ip ++ '.' :: fp) =
      some ((digitsVal (c :: ip) : ℚ) + (digitsVal fp : ℚ) / (10 : ℚ) ^ fp.length) := by
  have hne : ¬ c = '-' := by
    intro h
    rw [h] at hc
    exact absurd hc (by decide)
  have hall : ∀ d ∈ c :: ip, d.isDigit = true := by
    intro d hd
    rcases List.mem_cons.1 hd with h | h
    · rw [h]; exact hc
    · exact hipd d h
  have ht : (c :: (ip ++ '.' :: fp)).takeWhile Char.isDigit = c :: ip := by
    have := takeWhile_append_of_all (c :: ip) ('.' :: fp) hall
      (by intro d hd; simp at hd; rw [hd]; decide)
    simpa using this
  have hd2 : (c :: (ip ++ '.' :: fp)).dropWhile Char.isDigit = '.' :: fp := by
    have := dropWhile_append_of_all (c :: ip) ('.' :: fp) hall
      (by intro d hd; simp at hd; rw [hd]; decide)
    simpa using this
  have ht2 : fp.takeWhile Char.isDigit = fp := by
    have := takeWhile_append_of_all fp ([] : List Char) hfpd (by simp)
    simpa using this
  have hdp2 : fp.dropWhile Char.isDigit = [] := by
    have := dropWhile_append_of_all fp ([] : List Char) hfpd (by simp)
    simpa using this
  simp [parseFloatQ, hne, ht, hd2, ht2, hdp2, parseExpAt]

theorem parseFloatQ_neg_digits_dot (c : Char) (ip fp : List Char)
    (hc : c.isDigit = true)
    (hipd : ∀ d ∈ ip, d.isDigit = true) (hfpd : ∀ d ∈ fp, d.isDigit = true) :
    parseFloatQ ('-' :: (c :: ip ++ '.' :: fp)) =
      some (-((digitsVal (c :: ip) : ℚ) + (digitsVal fp : ℚ) / (10 : ℚ) ^ fp.length)) := by
  have hall : ∀ d ∈ c :: ip, d.isDigit = true := by
    intro d hd
    rcases List.mem_cons.1 hd with h | h
    · rw [h]; exact hc
    · exact hipd d h
  have ht : (c :: (ip ++ '.' :: fp)).takeWhile Char.isDigit = c :: ip := by
    have := takeWhile_append_of_all (c :: ip) ('.' :: fp) hall
      (by intro d hd; simp at hd; rw [hd]; decide)
    simpa using this
  have hd2 : (c :: (ip ++ '.' :: fp)).dropWhile Char.isDigit = '.' :: fp := by
    have := dropWhile_append_of_all (c :: ip) ('.' :: fp) hall
      (by intro d hd; simp at hd; rw [hd]; decide)
    simpa using this
  have ht2 : fp.takeWhile Char.isDigit = fp := by
    have := takeWhile_append_of_all fp ([] : List Char) hfpd (by simp)
    simpa using this
  have hdp2 : fp.dropWhile Char.isDigit = [] := by
    have := dropWhile_append_of_all fp ([] : List Char) hfpd (by simp)
    simpa using this
  simp [parseFloatQ, ht, hd2, ht2, hdp2, parseExpAt]

theorem nat_div_mod_q (n : ℕ) :
    ((n / 100 : ℕ) : ℚ) + ((n % 100 : ℕ) : ℚ) / 100 = (n : ℚ) / 100 := by
  have h : n / 100 * 100 + n % 100 = n := by omega
  field_simp
  exact_mod_cast h

theorem parseFloatQ_fix2 (q : ℚ) (hq : 0 ≤ q) : parseFloatQ (fix2 q) = some (fix2val q) := by
  rw [fix2]
  obtain ⟨c, ip, hip⟩ : ∃ c ip,
      natToChars ((⌊q * 100 + 1 / 2⌋).toNat / 100) = c :: ip := by
    cases h : natToChars ((⌊q * 100 + 1 / 2⌋).toNat / 100) with
    | nil => exact absurd h (natToChars_ne_nil _)
    | cons c ip => exact ⟨c, ip, rfl⟩
  have hc : c.isDigit = true := natToChars_digits _ c (by rw [hip]; simp)
  have hipd : ∀ d ∈ ip, d.isDigit = true := fun d hd =>
    natToChars_digits _ d (by rw [hip]; simp [hd])
  have hmod : (⌊q * 100 + 1 / 2⌋).toNat % 100 < 100 := Nat.mod_lt _ (by norm_num)
  rw [hip, parseFloatQ_digits_dot c ip _ hc hipd (pad2_digits _), ← hip,
    digitsVal_natToChars, digitsVal_pad2, length_pad2 hmod]
  have hfl : (0 : ℤ) ≤ ⌊q * 100 + 1 / 2⌋ := by
    rw [Int.le_floor]
    push_cast
    linarith
  have hcast : ((⌊q * 100 + 1 / 2⌋).toNat : ℚ) = ((⌊q * 100 + 1 / 2⌋ : ℤ) : ℚ) := by
    exact_mod_cast congrArg (fun z : ℤ => (z : ℚ)) (Int.toNat_of_nonneg hfl)
  rw [fix2val, ← hcast]
  congr 1
  calc ((⌊q * 100 + 1 / 2⌋.toNat / 100 : ℕ) : ℚ) +
        ((⌊q * 100 + 1 / 2⌋.toNat % 100 : ℕ) : ℚ) / 10 ^ 2
      = ((⌊q * 100 + 1 / 2⌋.toNat / 100 : ℕ) : ℚ) +
        ((⌊q * 100 + 1 / 2⌋.toNat % 100 : ℕ) : ℚ) / 100 := by norm_num
    _ = ((⌊q * 100 + 1 / 2⌋.toNat : ℕ) : ℚ) / 100 := nat_div_mod_q _

theorem parseFloatQ_toFixed2 (q : ℚ) : parseFloatQ (toFixed2 (some q)) = some (round2 q) := by
  rw [toFixed2, round2]
  split
  · rename_i hneg
    have hq : (0 : ℚ) ≤ -q := by linarith
    rw [fix2]
    obtain ⟨c, ip, hip⟩ : ∃ c ip,
        natToChars ((⌊-q * 100 + 1 / 2⌋).toNat / 100) = c :: ip := by
      cases h : natToChars ((⌊-q * 100 + 1 / 2⌋).toNat / 100) with
      | nil => exact absurd h (natToChars_ne_nil _)
      | cons c ip => exact ⟨c, ip, rfl⟩
    have hc : c.isDigit = true := natToChars_digits _ c (by rw [hip]; simp)
    have hipd : ∀ d ∈ ip, d.isDigit = true := fun d hd =>
      natToChars_digits _ d (by rw [hip]; simp [hd])
    have hmod : (⌊-q * 100 + 1 / 2⌋).toNat % 100 < 100 := Nat.mod_lt _ (by norm_num)
    rw [hip, parseFloatQ_neg_digits_dot c ip _ hc hipd (pad2_digits _), ← hip,
      digitsVal_natToChars, digitsVal_pad2, length_pad2 hmod]
    have hfl : (0 : ℤ) ≤ ⌊-q * 100 + 1 / 2⌋ := by
      rw [Int.le_floor]
      push_cast
      linarith
    have hcast : ((⌊-q * 100 + 1 / 2⌋).toNat : ℚ) = ((⌊-q * 100 + 1 / 2⌋ : ℤ) : ℚ) := by
      exact_mod_cast congrArg (fun z : ℤ => (z : ℚ)) (Int.toNat_of_nonneg hfl)
    rw [← hcast]
    congr 2
    calc ((⌊-q * 100 + 1 / 2⌋.toNat / 100 : ℕ) : ℚ) +
          ((⌊-q * 100 + 1 / 2⌋.toNat % 100 : ℕ) : ℚ) / 10 ^ 2
        = ((⌊-q * 100 + 1 / 2⌋.toNat / 100 : ℕ) : ℚ) +
          ((⌊-q * 100 + 1 / 2⌋.toNat % 100 : ℕ) : ℚ) / 100 := by norm_num
      _ = ((⌊-q * 100 + 1 / 2⌋.toNat : ℕ) : ℚ) / 100 := nat_div_mod_q _
  · rename_i hneg
    push_neg at hneg
    rw [parseFloatQ_fix2 q hneg, fix2val]

/-- C4 counterexample: the claim "scaling a path with `(s, s, 0, 0)` and
then with `(1/s, 1/s, 0, 0)` reproduces every original coordinate operand
to within 1e-3" is false on the code: the part_007 scaler formats its
output with `toFixed(2)`, so for `s = 1 > 0` the path
`"M 0.1234 0.1234"` round-trips to `"M 0.12 0.12"`, and the operand
`0.1234` comes back as `0.12`, off by `0.0034 > 1/1000`.  (Both operand
strings parse to exactly the shown rationals; the double-precision
computation produces the same two output strings.) -/
theorem C4_counterexample :
    (0 : ℚ) < 1 ∧
    PathScaler.scalePathToImage
        (PathScaler.scalePathToImage "M 0.1234 0.1234" ⟨0, 0, 1, 1⟩) ⟨0, 0, 1, 1⟩ =
      "M 0.12 0.12" ∧
    parseFloatQ "0.1234".toList = some 0.1234 ∧
    parseFloatQ "0.12".toList = some 0.12 ∧
    (0.1234 : ℚ) - 0.12 > 1 / 1000 := by
  refine ⟨by norm_num, by decide, by decide, by decide, by norm_num⟩

/-- C4 (amended): the part_007 scaler's round trip with `(s, s, 0, 0)`
then `(1/s, 1/s, 0, 0)` reproduces each coordinate operand only up to the
quantization of its `toFixed(2)` output formatting: for every operand `x`
and every `s > 0`, the operand comes back as
`round2 (round2 (x*s) * (1/s))` — scale, round to two decimals, rescale,
round again — which is within `1/200 + 1/(200*s)` of `x` (not within
`1e-3` in general). -/
theorem C4_roundtrip_quantized :
    ∀ s x : ℚ, 0 < s →
      roundtripOperand s x = some (round2 (round2 (x * s) * (1 / s))) ∧
      |round2 (round2 (x * s) * (1 / s)) - x| ≤ 1 / 200 + 1 / (200 * s) := by
  intro s x hs
  have h1 : jmulAdd (some x) s 0 = some (x * s) := by simp [jmulAdd]
  have h2 : jmulAdd (some (round2 (x * s))) (1 / s) 0 =
      some (round2 (x * s) * (1 / s)) := by simp [jmulAdd]
  constructor
  · rw [roundtripOperand, h1, parseFloatQ_toFixed2, h2, parseFloatQ_toFixed2]
  · have b1 := abs_round2_sub_le (x * s)
    have b2 := abs_round2_sub_le (round2 (x * s) * (1 / s))
    have hxs : |round2 (x * s) * (1 / s) - x| ≤ 1 / (200 * s) := by
      have e : round2 (x * s) * (1 / s) - x = (round2 (x * s) - x * s) * (1 / s) := by
        field_simp
        ring
      rw [e, abs_mul, abs_of_pos (by positivity : (0 : ℚ) < 1 / s)]
      calc |round2 (x * s) - x * s| * (1 / s) ≤ 1 / 200 * (1 / s) :=
            mul_le_mul_of_nonneg_right b1 (by positivity)
        _ = 1 / (200 * s) := by
            rw [div_mul_div_comm, one_mul]
    calc |round2 (round2 (x * s) * (1 / s)) - x|
        ≤ |round2 (round2 (x * s) * (1 / s)) - round2 (x * s) * (1 / s)| +
          |round2 (x * s) * (1 / s) - x| := abs_sub_le _ _ _
      _ ≤ 1 / 200 + 1 / (200 * s) := add_le_add b2 hxs

/-- C4 witness: `C4_roundtrip_quantized` at `s = 1`, operand `0.1234`:
the round trip yields exactly `0.12`, within the quantization bound. -/
theorem C4_roundtrip_quantized_witness :
    roundtripOperand 1 0.1234 = some 0.12 ∧
    |round2 (round2 ((0.1234 : ℚ) * 1) * (1 / 1)) - 0.1234| ≤ 1 / 200 + 1 / (200 * 1) := by
  have h := C4_roundtrip_quantized 1 0.1234 (by norm_num)
  refine ⟨?_, h.2⟩
  rw [h.1]
  decide

/-- C9: the two path-consuming call sites assume different coordinate
frames and are not equivalent: for the path `"M 0.5 0.5 L 1 1"` and the
Region `{0, 0, 0.5, 0.5}` (not the whole image) on a 400×400 image, the
whole-image interpretation (`components/SegmentOverlay.tsx`, scaling by
the full dimensions with zero offset, exactly as `createCutout` scales by
`(W, H)`) and the bounding-box-relative interpretation (the
`imageLayout`-based `SegmentOverlay`, scaling by the bbox pixel size and
offsetting by its origin, exactly as `createCutoutWithBbox` does) produce
different pixel geometry for the same input. -/
theorem C9_frame_ambiguity_not_equivalent :
    ((Region.mk 0 0 (1/2) (1/2)).x_max, (Region.mk 0 0 (1/2) (1/2)).y_max) ≠ (1, 1) ∧
    SimpleScaler.scalePathToImage "M 0.5 0.5 L 1 1" 400 400 =
      "M 200.00 200.00 L 400.00 400.00" ∧
    segmentOverlayScaledPath "M 0.5 0.5 L 1 1" ⟨0, 0, 1/2, 1/2⟩ ⟨0, 0, 400, 400⟩ =
      "M 100.00 100.00 L 200.00 200.00" ∧
    SimpleScaler.scalePathToImage "M 0.5 0.5 L 1 1" 400 400 ≠
      segmentOverlayScaledPath "M 0.5 0.5 L 1 1" ⟨0, 0, 1/2, 1/2⟩ ⟨0, 0, 400, 400⟩ ∧
    Cutout.scalePathToPixels 400 400 [(1/2, 1/2)] = [(200, 200)] ∧
    Cutout.scalePathToBbox ((0 : ℚ) * 400) ((0 : ℚ) * 400)
        (((1/2 : ℚ) - 0) * 400) (((1/2 : ℚ) - 0) * 400) [(1/2, 1/2)] =
      [(100, 100)] ∧
    ((200 : ℚ), (200 : ℚ)) ≠ ((100 : ℚ), (100 : ℚ)) := by
  refine ⟨by decide, by decide, by decide, by decide, ?_, ?_, by decide⟩
  · simp [Cutout.scalePathToPixels, Cutout.applyAffine]
    norm_num
  · simp [Cutout.scalePathToBbox, Cutout.applyAffine]
    norm_num

/-! ### Character-class disjointness and `matchPair` evaluation -/

theorem numDot_not_ws {c : Char} (h : isNumDot c = true) : isWs c = false := by
  cases hw : isWs c
  · rfl
  · exfalso
    simp only [isWs, Bool.or_eq_true, decide_eq_true_eq] at hw
    have hc : c = ' ' ∨ c = '\t' ∨ c = '\n' ∨ c = '\r' := by tauto
    rcases hc with h1 | h1 | h1 | h1 <;> (rw [h1] at h; exact absurd h (by decide))

theorem numDot_not_ml {c : Char} (h : isNumDot c = true) :
    SimpleScaler.isML c = false := by
  cases hw : SimpleScaler.isML c
  · rfl
  · exfalso
    simp only [SimpleScaler.isML, Bool.or_eq_true, decide_eq_true_eq] at hw
    have hc : c = 'M' ∨ c = 'L' ∨ c = 'm' ∨ c = 'l' := by tauto
    rcases hc with h1 | h1 | h1 | h1 <;> (rw [h1] at h; exact absurd h (by decide))

theorem cmdLetter_not_numDot {c : Char} (h : c ∈ cmdLetters) : isNumDot c = false := by
  fin_cases h <;> decide

theorem cmdLetter_not_ws {c : Char} (h : c ∈ cmdLetters) : isWs c = false := by
  fin_cases h <;> decide

theorem goodTok_cons (d : Char) (r : List Char) :
    goodTok (d :: r) =
      if d = '-' then !r.isEmpty && r.all isNumDot else (d :: r).all isNumDot := rfl

theorem goodTok_chars {t : List Char} (h : goodTok t = true) :
    ∀ c ∈ t, isNumDot c = true ∨ c = '-' := by
  intro c hc
  cases t with
  | nil => simp at hc
  | cons d r =>
    rw [goodTok_cons] at h
    by_cases hd : d = '-'
    · rw [if_pos hd, Bool.and_eq_true, List.all_eq_true] at h
      rcases List.mem_cons.1 hc with h1 | h1
      · exact Or.inr (h1.trans hd)
      · exact Or.inl (h.2 c h1)
    · rw [if_neg hd, List.all_eq_true] at h
      exact Or.inl (h c hc)

theorem goodTok_ne_nil {t : List Char} (h : goodTok t = true) : t ≠ [] := by
  intro hnil
  subst hnil
  exact absurd h (by decide)

theorem goodTok_not_ml {t : List Char} (h : goodTok t = true) :
    ∀ c ∈ t, SimpleScaler.isML c = false := by
  intro c hc
  rcases goodTok_chars h c hc with h1 | h1
  · exact numDot_not_ml h1
  · rw [h1]; decide

theorem goodTok_of_all_numDot {t : List Char} (hne : t ≠ [])
    (h : t.all isNumDot = true) : goodTok t = true := by
  cases t with
  | nil => exact absurd rfl hne
  | cons d r =>
    have hd : isNumDot d = true := by
      rw [List.all_eq_true] at h
      exact h d (by simp)
    have hdm : ¬ d = '-' := by
      intro he
      rw [he] at hd
      exact absurd hd (by decide)
    rw [goodTok_cons, if_neg hdm]
    exact h

theorem ws_not_numDot {c : Char} (h : isWs c = true) : isNumDot c = false := by
  cases hn : isNumDot c
  · rfl
  · have := numDot_not_ws hn
    rw [this] at h
    exact absurd h (by simp)

/-- Head of the scanned text after leading whitespace is not a `[\d.]`
character (or the text runs out): the replace pattern cannot match. -/
theorem matchPair_none (cs : List Char)
    (h : ∀ c ∈ (cs.dropWhile isWs).take 1, isNumDot c = false) :
    SimpleScaler.matchPair cs = none := by
  rw [SimpleScaler.matchPair]
  have hxs : (cs.dropWhile isWs).takeWhile isNumDot = [] := by
    cases hd : cs.dropWhile isWs with
    | nil => rfl
    | cons c r =>
      rw [List.takeWhile_cons, h c (by rw [hd]; simp)]
      rfl
  simp [hxs]

/-- A single well-formed nonnegative token after the command letter with
no second token following: no match. -/
theorem matchPair_one_tok (a0 after : List Char) (h0 : a0 ≠ [])
    (ha : ∀ c ∈ a0, isNumDot c = true)
    (hafter : ∀ c ∈ (after.dropWhile isWs).take 1, isNumDot c = false) :
    SimpleScaler.matchPair (' ' :: (a0 ++ after)) = none := by
  obtain ⟨d, a0r, rfl⟩ : ∃ d a0r, a0 = d :: a0r := by
    cases a0
    · exact absurd rfl h0
    · exact ⟨_, _, rfl⟩
  have hafter1 : ∀ c ∈ after.take 1, isNumDot c = false := by
    intro c hc
    cases after with
    | nil => simp at hc
    | cons e r =>
      simp only [List.take_succ_cons, List.take_zero, List.mem_singleton] at hc
      subst hc
      cases hw : isWs c
      · have hde : (c :: r).dropWhile isWs = c :: r := by
          rw [List.dropWhile_cons, hw]
          rfl
        exact hafter c (by rw [hde]; simp)
      · exact ws_not_numDot hw
  have hr1 : (' ' :: (d :: a0r ++ after)).dropWhile isWs = d :: a0r ++ after := by
    have h2 : isWs d = false := numDot_not_ws (ha d (by simp))
    have hsp : isWs ' ' = true := rfl
    simp [List.cons_append, List.dropWhile_cons, h2, hsp]
  have hxs : (d :: a0r ++ after).takeWhile isNumDot = d :: a0r :=
    takeWhile_append_of_all (d :: a0r) after ha hafter1
  have hr2 : (d :: a0r ++ after).dropWhile isNumDot = after :=
    dropWhile_append_of_all (d :: a0r) after ha hafter1
  have hys : (after.dropWhile isWs).takeWhile isNumDot = [] := by
    cases hd3 : after.dropWhile isWs with
    | nil => rfl
    | cons e r =>
      rw [List.takeWhile_cons, hafter e (by rw [hd3]; simp)]
      rfl
  rw [SimpleScaler.matchPair]
  simp only [hr1, hxs, hr2, hys]
  by_cases hs2 : after.takeWhile isWs = [] <;> simp [hs2]

/-- A well-formed nonnegative first token followed by a negative (or
otherwise non-`[\d.]`-headed) second token: no match. -/
theorem matchPair_neg_second (a0 a1t : List Char) (h0 : a0 ≠ [])
    (ha : ∀ c ∈ a0, isNumDot c = true)
    (h1 : ∀ c ∈ a1t.take 1, isNumDot c = false) (h1w : ∀ c ∈ a1t.take 1, isWs c = false) :
    SimpleScaler.matchPair (' ' :: (a0 ++ ' ' :: a1t)) = none := by
  obtain ⟨d, a0r, rfl⟩ : ∃ d a0r, a0 = d :: a0r := by
    cases a0
    · exact absurd rfl h0
    · exact ⟨_, _, rfl⟩
  have hsep : ∀ c ∈ (' ' :: a1t).take 1, isNumDot c = false := by
    intro c hc
    simp only [List.take_succ_cons, List.take_zero, List.mem_singleton] at hc
    subst hc
    decide
  have hr1 : (' ' :: (d :: a0r ++ ' ' :: a1t)).dropWhile isWs =
      d :: a0r ++ ' ' :: a1t := by
    have h2 : isWs d = false := numDot_not_ws (ha d (by simp))
    have hsp : isWs ' ' = true := rfl
    simp [List.cons_append, List.dropWhile_cons, h2, hsp]
  have hxs : (d :: a0r ++ ' ' :: a1t).takeWhile isNumDot = d :: a0r :=
    takeWhile_append_of_all (d :: a0r) (' ' :: a1t) ha hsep
  have hr2 : (d :: a0r ++ ' ' :: a1t).dropWhile isNumDot = ' ' :: a1t :=
    dropWhile_append_of_all (d :: a0r) (' ' :: a1t) ha hsep
  have hr3 : (' ' :: a1t).dropWhile isWs = a1t := by
    have hsp : isWs ' ' = true := rfl
    cases a1t with
    | nil => simp [List.dropWhile_cons, hsp]
    | cons e r =>
      have h2 : isWs e = false := h1w e (by simp)
      simp [List.dropWhile_cons, h2, hsp]
  have hys : a1t.takeWhile isNumDot = [] := by
    cases a1t with
    | nil => rfl
    | cons e r =>
      rw [List.takeWhile_cons, h1 e (by simp)]
      rfl
  rw [SimpleScaler.matchPair]
  simp only [hr1, hxs, hr2, hr3, hys]
  simp [List.takeWhile_cons, show isWs ' ' = true from rfl]

/-- Two well-formed nonnegative tokens after the command letter: the
pattern matches exactly them. -/
theorem matchPair_success (xs ys tail : List Char)
    (hx0 : xs ≠ []) (hx : ∀ c ∈ xs, isNumDot c = true)
    (hy0 : ys ≠ []) (hy : ∀ c ∈ ys, isNumDot c = true)
    (htail : ∀ c ∈ tail.take 1, isNumDot c = false) :
    SimpleScaler.matchPair (' ' :: (xs ++ ' ' :: (ys ++ tail))) =
      some (xs, ys, tail) := by
  obtain ⟨d, xsr, rfl⟩ : ∃ d xsr, xs = d :: xsr := by
    cases xs
    · exact absurd rfl hx0
    · exact ⟨_, _, rfl⟩
  obtain ⟨e, ysr, rfl⟩ : ∃ e ysr, ys = e :: ysr := by
    cases ys
    · exact absurd rfl hy0
    · exact ⟨_, _, rfl⟩
  have hsep : ∀ c ∈ (' ' :: (e :: ysr ++ tail)).take 1, isNumDot c = false := by
    intro c hc
    simp only [List.take_succ_cons, List.take_zero, List.mem_singleton] at hc
    subst hc
    decide
  have hr1 : (' ' :: (d :: xsr ++ ' ' :: (e :: ysr ++ tail))).dropWhile isWs =
      d :: xsr ++ ' ' :: (e :: ysr ++ tail) := by
    have h2 : isWs d = false := numDot_not_ws (hx d (by simp))
    have hsp : isWs ' ' = true := rfl
    simp [List.cons_append, List.dropWhile_cons, h2, hsp]
  have hxs : (d :: xsr ++ ' ' :: (e :: ysr ++ tail)).takeWhile isNumDot = d :: xsr :=
    takeWhile_append_of_all (d :: xsr) (' ' :: (e :: ysr ++ tail)) hx hsep
  have hr2 : (d :: xsr ++ ' ' :: (e :: ysr ++ tail)).dropWhile isNumDot =
      ' ' :: (e :: ysr ++ tail) :=
    dropWhile_append_of_all (d :: xsr) (' ' :: (e :: ysr ++ tail)) hx hsep
  have hr3 : (' ' :: (e :: ysr ++ tail)).dropWhile isWs = e :: ysr ++ tail := by
    have h2 : isWs e = false := numDot_not_ws (hy e (by simp))
    have hsp : isWs ' ' = true := rfl
    simp [List.cons_append, List.dropWhile_cons, h2, hsp]
  have hys : (e :: ysr ++ tail).takeWhile isNumDot = e :: ysr :=
    takeWhile_append_of_all (e :: ysr) tail hy htail
  have hrr : (e :: ysr ++ tail).dropWhile isNumDot = tail :=
    dropWhile_append_of_all (e :: ysr) tail hy htail
  rw [SimpleScaler.matchPair]
  simp only [hr1, hxs, hr2, hr3, hys, hrr]
  simp [List.takeWhile_cons, show isWs ' ' = true from rfl]

/-! ### Scan structure lemmas for the replace-based scaler -/

theorem length_dropWhile_le {α : Type} (p : α → Bool) (l : List α) :
    (l.dropWhile p).length ≤ l.length := by
  induction l with
  | nil => simp
  | cons a t ih =>
    rw [List.dropWhile_cons]
    split
    · exact le_trans ih (by simp)
    · simp

theorem matchPair_some_length {cs xs ys r : List Char}
    (h : SimpleScaler.matchPair cs = some (xs, ys, r)) : r.length ≤ cs.length := by
  rw [SimpleScaler.matchPair] at h
  by_cases h1 : (cs.dropWhile isWs).takeWhile isNumDot = []
  · rw [if_pos h1] at h
    cases h
  rw [if_neg h1] at h
  by_cases h2 : ((cs.dropWhile isWs).dropWhile isNumDot).takeWhile isWs = []
  · rw [if_pos h2] at h
    cases h
  rw [if_neg h2] at h
  by_cases h3 : (((cs.dropWhile isWs).dropWhile isNumDot).dropWhile
      isWs).takeWhile isNumDot = []
  · rw [if_pos h3] at h
    cases h
  rw [if_neg h3] at h
  simp only [Option.some.injEq, Prod.mk.injEq] at h
  obtain ⟨-, -, hr⟩ := h
  subst hr
  calc ((((cs.dropWhile isWs).dropWhile isNumDot).dropWhile isWs).dropWhile
          isNumDot).length
      ≤ (((cs.dropWhile isWs).dropWhile isNumDot).dropWhile isWs).length :=
        length_dropWhile_le _ _
    _ ≤ ((cs.dropWhile isWs).dropWhile isNumDot).length := length_dropWhile_le _ _
    _ ≤ (cs.dropWhile isWs).length := length_dropWhile_le _ _
    _ ≤ cs.length := length_dropWhile_le _ _

theorem replaceGo_fuel_eq (w h : ℚ) :
    ∀ f cs, cs.length ≤ f →
      SimpleScaler.replaceGo w h f cs = SimpleScaler.replaceGo w h cs.length cs := by
  intro f
  induction f using Nat.strong_induction_on with
  | _ f ih =>
    intro cs hf
    cases cs with
    | nil => cases f <;> rfl
    | cons c rest =>
      cases f with
      | zero => simp at hf
      | succ fp =>
        have hrest : rest.length ≤ fp := by simpa using hf
        show SimpleScaler.replaceGo w h (fp + 1) (c :: rest) =
          SimpleScaler.replaceGo w h (rest.length + 1) (c :: rest)
        by_cases hml : SimpleScaler.isML c
        · cases hmp : SimpleScaler.matchPair rest with
          | none =>
            simp only [SimpleScaler.replaceGo, hml, if_true, hmp]
            rw [ih fp (by omega) rest hrest]
          | some t =>
            obtain ⟨xs, ys, r⟩ := t
            have hr : r.length ≤ rest.length := matchPair_some_length hmp
            simp only [SimpleScaler.replaceGo, hml, if_true, hmp]
            rw [ih fp (by omega) r (le_trans hr hrest),
              ih rest.length (by omega) r hr]
        · simp only [SimpleScaler.replaceGo, hml, Bool.false_eq_true, if_false]
          rw [ih fp (by omega) rest hrest]

theorem replaceGo_copy (w h : ℚ) :
    ∀ (t s : List Char), (∀ c ∈ t, SimpleScaler.isML c = false) →
      SimpleScaler.replaceGo w h (t ++ s).length (t ++ s) =
        t ++ SimpleScaler.replaceGo w h s.length s := by
  intro t
  induction t with
  | nil => intro s _; simp
  | cons c tp ih =>
    intro s hml
    have hc : SimpleScaler.isML c = false := hml c (by simp)
    show SimpleScaler.replaceGo w h ((tp ++ s).length + 1) (c :: (tp ++ s)) = _
    simp only [SimpleScaler.replaceGo, hc, Bool.false_eq_true, if_false]
    rw [ih s (fun d hd => hml d (by simp [hd]))]
    simp

/-- One non-matching character step of the scan. -/
theorem replaceGo_cons_not_ml (w h : ℚ) (c : Char) (s : List Char)
    (hc : SimpleScaler.isML c = false) :
    SimpleScaler.replaceGo w h (s.length + 1) (c :: s) =
      c :: SimpleScaler.replaceGo w h s.length s := by
  simp only [SimpleScaler.replaceGo, hc, Bool.false_eq_true, if_false]

/-! ### Structured-path rendering lemmas -/

theorem mem_argsFold {args : List (List Char)} {c : Char}
    (h : c ∈ args.foldr (fun t acc => ' ' :: (t ++ acc)) []) :
    c = ' ' ∨ ∃ t ∈ args, c ∈ t := by
  induction args with
  | nil => simp at h
  | cons a r ih =>
    simp only [List.foldr] at h
    rcases List.mem_cons.1 h with h1 | h1
    · exact Or.inl h1
    · rcases List.mem_append.1 h1 with h2 | h2
      · exact Or.inr ⟨a, by simp, h2⟩
      · rcases ih h2 with h3 | h3
        · exact Or.inl h3
        · obtain ⟨t, ht, hct⟩ := h3
          exact Or.inr ⟨t, by simp [ht], hct⟩

theorem argsFold_shape (args : List (List Char)) :
    args.foldr (fun t acc => ' ' :: (t ++ acc)) [] = [] ∨
    ∃ X, args.foldr (fun t acc => ' ' :: (t ++ acc)) [] = ' ' :: X := by
  cases args with
  | nil => exact Or.inl rfl
  | cons a r => exact Or.inr ⟨_, rfl⟩

theorem renderPath_cons_head (c : RawCmd) (p : List RawCmd) :
    ∃ X, renderPath (c :: p) = c.letter :: X := by
  cases p with
  | nil => exact ⟨_, rfl⟩
  | cons c2 p2 => exact ⟨_, rfl⟩

theorem goodTok_not_all {t : List Char} (hg : goodTok t = true)
    (hna : t.all isNumDot = false) : ∃ r, t = '-' :: r := by
  cases t with
  | nil => exact absurd hg (by decide)
  | cons d r =>
    by_cases hd : d = '-'
    · exact ⟨r, by rw [hd]⟩
    · rw [goodTok_cons, if_neg hd] at hg
      rw [hg] at hna
      exact absurd hna (by simp)

/-- A failing match step on a command letter followed by match-free text:
the scan copies the letter and the argument text. -/
theorem replace_cmd_fail (w h : ℚ) (letter : Char) (AF suffix : List Char)
    (hml : SimpleScaler.isML letter = true)
    (hmp : SimpleScaler.matchPair (AF ++ suffix) = none)
    (hnoml : ∀ ch ∈ AF, SimpleScaler.isML ch = false) :
    SimpleScaler.replaceGo w h (letter :: (AF ++ suffix)).length
        (letter :: (AF ++ suffix)) =
      letter :: (AF ++ SimpleScaler.replaceGo w h suffix.length suffix) := by
  simp only [List.length_cons, SimpleScaler.replaceGo, hml, if_true, hmp]
  rw [replaceGo_copy w h AF suffix hnoml]

/-- One rendered command followed by a well-shaped suffix: the scan
transforms exactly what `mlTransform` says and leaves the suffix to the
continuation. -/
theorem replace_cmd (w h : ℚ) (c : RawCmd) (suffix : List Char)
    (hargs : ∀ t ∈ c.args, goodTok t = true)
    (hsuf : suffix = [] ∨ ∃ X, suffix = ' ' :: X ∧
      ∀ ch ∈ X.take 1, isNumDot ch = false ∧ isWs ch = false) :
    SimpleScaler.replaceGo w h (renderCmd c ++ suffix).length (renderCmd c ++ suffix) =
      renderCmd (mlTransform w h c) ++
        SimpleScaler.replaceGo w h suffix.length suffix := by
  obtain ⟨letter, args⟩ := c
  have hsufTail1 : ∀ ch ∈ suffix.take 1, isNumDot ch = false := by
    rcases hsuf with rfl | ⟨X, rfl, hX⟩
    · simp
    · intro ch hch
      simp only [List.take_succ_cons, List.take_zero, List.mem_singleton] at hch
      subst hch
      decide
  have hsufHead : ∀ ch ∈ (suffix.dropWhile isWs).take 1, isNumDot ch = false := by
    rcases hsuf with rfl | ⟨X, rfl, hX⟩
    · simp
    · intro ch hch
      cases X with
      | nil => simp [List.dropWhile_cons, show isWs ' ' = true from rfl] at hch
      | cons e X2 =>
        have he := hX e (by simp)
        have hde : (' ' :: e :: X2).dropWhile isWs = e :: X2 := by
          simp [List.dropWhile_cons, show isWs ' ' = true from rfl, he.2]
        rw [hde] at hch
        simp only [List.take_succ_cons, List.take_zero, List.mem_singleton] at hch
        subst hch
        exact he.1
  have hAFnoml : ∀ ch ∈ args.foldr (fun t acc => ' ' :: (t ++ acc)) [],
      SimpleScaler.isML ch = false := by
    intro ch hch
    rcases mem_argsFold hch with rfl | hm
    · decide
    · obtain ⟨t, ht, hct⟩ := hm
      exact goodTok_not_ml (hargs t ht) ch hct
  have hscan : renderCmd ⟨letter, args⟩ ++ suffix =
      letter :: (args.foldr (fun t acc => ' ' :: (t ++ acc)) [] ++ suffix) := rfl
  by_cases hml : SimpleScaler.isML letter
  · cases args with
    | nil =>
      have hmp : SimpleScaler.matchPair
          (([] : List (List Char)).foldr (fun t acc => ' ' :: (t ++ acc)) [] ++
            suffix) = none := by
        have := matchPair_none suffix hsufHead
        simpa using this
      have hmlt : mlTransform w h ⟨letter, []⟩ = ⟨letter, []⟩ := by
        simp [mlTransform, hml]
      rw [hscan, replace_cmd_fail w h letter _ suffix hml hmp hAFnoml, hmlt]
      rfl
    | cons a0 args1 =>
      have hg0 : goodTok a0 = true := hargs a0 (by simp)
      by_cases ha0 : a0.all isNumDot
      · have hxmem : ∀ d ∈ a0, isNumDot d = true := fun d hd =>
          (List.all_eq_true.mp ha0) d hd
        cases args1 with
        | nil =>
          have hmp : SimpleScaler.matchPair
              ((a0 :: ([] : List (List Char))).foldr
                (fun t acc => ' ' :: (t ++ acc)) [] ++ suffix) = none := by
            have := matchPair_one_tok a0 suffix (goodTok_ne_nil hg0) hxmem hsufHead
            simpa using this
          have hmlt : mlTransform w h ⟨letter, [a0]⟩ = ⟨letter, [a0]⟩ := by
            simp [mlTransform, hml]
          rw [hscan, replace_cmd_fail w h letter _ suffix hml hmp hAFnoml, hmlt]
          rfl
        | cons a1 args2 =>
          have hg1 : goodTok a1 = true := hargs a1 (by simp)
          by_cases ha1 : a1.all isNumDot
          · -- the pattern matches: exactly the first pair is rewritten
            have hymem : ∀ d ∈ a1, isNumDot d = true := fun d hd =>
              (List.all_eq_true.mp ha1) d hd
            have htail : ∀ ch ∈ (args2.foldr (fun t acc => ' ' :: (t ++ acc)) [] ++
                suffix).take 1, isNumDot ch = false := by
              rcases argsFold_shape args2 with hsh | ⟨X2, hsh⟩
              · rw [hsh]
                simpa using hsufTail1
              · rw [hsh]
                intro ch hch
                simp only [List.cons_append, List.take_succ_cons, List.take_zero,
                  List.mem_singleton] at hch
                subst hch
                decide
            have hmp := matchPair_success a0 a1
              (args2.foldr (fun t acc => ' ' :: (t ++ acc)) [] ++ suffix)
              (goodTok_ne_nil hg0) hxmem (goodTok_ne_nil hg1) hymem htail
            have hsh : (a0 :: a1 :: args2).foldr (fun t acc => ' ' :: (t ++ acc)) [] ++
                suffix = ' ' :: (a0 ++ ' ' ::
                  (a1 ++ (args2.foldr (fun t acc => ' ' :: (t ++ acc)) [] ++
                    suffix))) := by
              simp [List.cons_append, List.append_assoc]
            have hmlt : mlTransform w h ⟨letter, a0 :: a1 :: args2⟩ =
                ⟨letter, toFixed2 (jmul (parseFloatQ a0) w) ::
                  toFixed2 (jmul (parseFloatQ a1) h) :: args2⟩ := by
              simp [mlTransform, hml, ha0, ha1]
            have hnoml2 : ∀ ch ∈ args2.foldr (fun t acc => ' ' :: (t ++ acc)) [],
                SimpleScaler.isML ch = false := by
              intro ch hch
              rcases mem_argsFold hch with rfl | hm
              · decide
              · obtain ⟨t, ht, hct⟩ := hm
                exact goodTok_not_ml (hargs t (by simp [ht])) ch hct
            rw [hscan, hsh]
            simp only [List.length_cons, SimpleScaler.replaceGo, hml, if_true, hmp]
            rw [replaceGo_fuel_eq w h _ _ (by
              simp [List.length_cons, List.length_append]
              omega)]
            rw [replaceGo_copy w h _ suffix hnoml2, hmlt]
            simp [renderCmd, List.cons_append, List.append_assoc]
          · -- negative second token: no match
            obtain ⟨r1, rfl⟩ := goodTok_not_all hg1 (by simpa using ha1)
            have hmp : SimpleScaler.matchPair
                ((a0 :: ('-' :: r1) :: args2).foldr
                  (fun t acc => ' ' :: (t ++ acc)) [] ++ suffix) = none := by
              have := matchPair_neg_second a0
                ('-' :: r1 ++ (args2.foldr (fun t acc => ' ' :: (t ++ acc)) [] ++
                  suffix))
                (goodTok_ne_nil hg0) hxmem
                (by
                  intro ch hch
                  simp only [List.cons_append, List.take_succ_cons, List.take_zero,
                    List.mem_singleton] at hch
                  subst hch
                  decide)
                (by
                  intro ch hch
                  simp only [List.cons_append, List.take_succ_cons, List.take_zero,
                    List.mem_singleton] at hch
                  subst hch
                  decide)
              simpa [List.cons_append, List.append_assoc] using this
            have hmlt : mlTransform w h ⟨letter, a0 :: ('-' :: r1) :: args2⟩ =
                ⟨letter, a0 :: ('-' :: r1) :: args2⟩ := by
              have ha1f : ('-' :: r1).all isNumDot = false := by
                simpa using ha1
              simp [mlTransform, hml, ha1f]
            rw [hscan, replace_cmd_fail w h letter _ suffix hml hmp hAFnoml, hmlt]
            rfl
      · -- negative first token: no match
        obtain ⟨r0, rfl⟩ := goodTok_not_all hg0 (by simpa using ha0)
        have hmp : SimpleScaler.matchPair
            ((('-' :: r0) :: args1).foldr
              (fun t acc => ' ' :: (t ++ acc)) [] ++ suffix) = none := by
          apply matchPair_none
          have hd1 : ((('-' :: r0) :: args1).foldr
              (fun t acc => ' ' :: (t ++ acc)) [] ++ suffix).dropWhile isWs =
              '-' :: (r0 ++ (args1.foldr (fun t acc => ' ' :: (t ++ acc)) [] ++
                suffix)) := by
            simp [List.cons_append, List.append_assoc, List.dropWhile_cons,
              show isWs ' ' = true from rfl, show isWs '-' = false from rfl]
          rw [hd1]
          intro ch hch
          simp only [List.take_succ_cons, List.take_zero, List.mem_singleton] at hch
          subst hch
          decide
        have hmlt : mlTransform w h ⟨letter, ('-' :: r0) :: args1⟩ =
            ⟨letter, ('-' :: r0) :: args1⟩ := by
          have ha0f : ('-' :: r0).all isNumDot = false := by
            simpa using ha0
          cases args1 <;> simp [mlTransform, hml, ha0f]
        rw [hscan, replace_cmd_fail w h letter _ suffix hml hmp hAFnoml, hmlt]
        rfl
  · -- not an M/L command: every character is copied
    have hnoml : ∀ ch ∈ renderCmd ⟨letter, args⟩, SimpleScaler.isML ch = false := by
      intro ch hch
      rw [show renderCmd ⟨letter, args⟩ =
        letter :: args.foldr (fun t acc => ' ' :: (t ++ acc)) [] from rfl] at hch
      rcases List.mem_cons.1 hch with rfl | hch2
      · simpa using hml
      · exact hAFnoml ch hch2
    have hmlt : mlTransform w h ⟨letter, args⟩ = ⟨letter, args⟩ := by
      simp [mlTransform, hml]
    rw [replaceGo_copy w h (renderCmd ⟨letter, args⟩) suffix hnoml, hmlt]

/-- C10: on any well-formed rendered path (command letters from the SVG
alphabet, whitespace-separated numeric tokens), the whole-image scaler of
`components/SegmentOverlay.tsx` transforms only the first pair of
nonnegative decimal coordinates following each `M`/`L` (case-insensitive)
command letter — mapping them to `x * width` and `y * height` with no
offset, formatted to two decimal places — and reproduces every other
character unchanged: `H`/`V`/`C`/`S`/`Q`/`T`/`A`/`Z` commands and their
operands, negative coordinates, and any additional implicit-repetition
pairs after an `M`/`L` all pass through verbatim (`mlTransform` changes
nothing but a matched first pair). -/
theorem C10_whole_image_scaler_first_pair_only :
    ∀ (width height : ℚ) (p : List RawCmd),
      (∀ cmd ∈ p, cmd.letter ∈ cmdLetters ∧ ∀ t ∈ cmd.args, goodTok t = true) →
      SimpleScaler.scalePathChars width height (renderPath p) =
        renderPath (p.map (mlTransform width height)) := by
  intro w h p
  induction p with
  | nil => intro _; rfl
  | cons c p2 ih =>
    intro hp
    have hc := hp c (by simp)
    have hp2 : ∀ cmd ∈ p2, cmd.letter ∈ cmdLetters ∧
        ∀ t ∈ cmd.args, goodTok t = true :=
      fun cmd hcmd => hp cmd (by simp [hcmd])
    cases p2 with
    | nil =>
      show SimpleScaler.replaceGo w h (renderCmd c).length (renderCmd c) =
        renderPath [mlTransform w h c]
      have hstep := replace_cmd w h c [] hc.2 (Or.inl rfl)
      simpa [SimpleScaler.replaceGo] using hstep
    | cons c2 p3 =>
      obtain ⟨X, hX⟩ := renderPath_cons_head c2 p3
      have hc2 := hp2 c2 (by simp)
      have hsuf : (' ' :: renderPath (c2 :: p3) : List Char) = [] ∨
          ∃ Y, (' ' :: renderPath (c2 :: p3) : List Char) = ' ' :: Y ∧
            ∀ ch ∈ Y.take 1, isNumDot ch = false ∧ isWs ch = false := by
        right
        refine ⟨renderPath (c2 :: p3), rfl, ?_⟩
        intro ch hch
        rw [hX] at hch
        simp only [List.take_succ_cons, List.take_zero, List.mem_singleton] at hch
        subst hch
        exact ⟨cmdLetter_not_numDot hc2.1, cmdLetter_not_ws hc2.1⟩
      have hstep := replace_cmd w h c (' ' :: renderPath (c2 :: p3)) hc.2 hsuf
      show SimpleScaler.replaceGo w h
          (renderCmd c ++ ' ' :: renderPath (c2 :: p3)).length
          (renderCmd c ++ ' ' :: renderPath (c2 :: p3)) = _
      rw [hstep,
        show ((' ' :: renderPath (c2 :: p3) : List Char).length) =
          (renderPath (c2 :: p3)).length + 1 from rfl,
        replaceGo_cons_not_ml w h ' ' _ (by decide),
        show SimpleScaler.replaceGo w h (renderPath (c2 :: p3)).length
            (renderPath (c2 :: p3)) =
          renderPath (List.map (mlTransform w h) (c2 :: p3)) from ih hp2]
      rfl

/-- C10 witness: `C10_whole_image_scaler_first_pair_only` on the rendered
path `"M 0.1 0.2 L 0.5 0.6 Z"` with width = height = 10: the `M` and `L`
pairs are rewritten to two-decimal scaled values, `Z` is untouched. -/
theorem C10_whole_image_scaler_first_pair_only_witness :
    SimpleScaler.scalePathChars 10 10
        (renderPath [⟨'M', ["0.1".toList, "0.2".toList]⟩,
                     ⟨'L', ["0.5".toList, "0.6".toList]⟩, ⟨'Z', []⟩]) =
      renderPath ([⟨'M', ["0.1".toList, "0.2".toList]⟩,
                   ⟨'L', ["0.5".toList, "0.6".toList]⟩,
                   ⟨'Z', ([] : List (List Char))⟩].map (mlTransform 10 10)) ∧
    renderPath ([⟨'M', ["0.1".toList, "0.2".toList]⟩,
                 ⟨'L', ["0.5".toList, "0.6".toList]⟩,
                 ⟨'Z', ([] : List (List Char))⟩].map (mlTransform 10 10)) =
      "M 1.00 2.00 L 5.00 6.00 Z".toList := by
  constructor
  · exact C10_whole_image_scaler_first_pair_only 10 10 _ (by decide)
  · decide

end LabellingApp
